import Mathlib

/-!
# Reliable datagram transport: send window, receive path, handshake

A shallow embedding of `rudp.h`, `sans_backend.c`, `sans_transport.c`,
`sans_socket.c` and the path helpers of `http_server.c`.  Process-global C variables become the fields of `State`;
every C function becomes a function on `State`.  Machine integers are natural
numbers; the 32-bit sequence counters wrap explicitly modulo `2^32`.
Operating-system results (the outcome of `recvfrom`, of `malloc`, of
`socket`) are extra arguments of the function that consumes them.
-/

namespace Rudp

/-! ## Constants of `rudp.h` -/

def DAT : Nat := 0
def SYN : Nat := 1
def ACK : Nat := 2
def FIN : Nat := 4
def MAX_SOCKETS : Nat := 10
def PKT_LEN : Nat := 1400

/-- The window capacity `swnd_size` of `sans_backend.c`. -/
def swnd_size : Nat := 20

/-- Number of values of a `uint32_t`; `send_seq++` and `recv_seq++` wrap at it. -/
def UINT32_MOD : Nat := 4294967296

/-- Offset of `type` in `rudp_packet_t`. -/
def type_off : Nat := 0

/-- Offset of `seqnum` in `rudp_packet_t`: the `uint32_t` is aligned to 4 bytes. -/
def seqnum_off : Nat := 4

/-- The header size `offsetof(rudp_packet_t, payload)`. -/
def hdr_size : Nat := 8

/-- The size `sizeof(rudp_packet_t)`: header plus `PKT_LEN` payload bytes. -/
def sizeof_packet : Nat := hdr_size + PKT_LEN

/-- The size `sizeof(struct sockaddr_storage)`. -/
def sizeof_sockaddr_storage : Nat := 128

/-! ## Byte buffers -/

/-- C `memset(dst, c, n)` on the bytes of `dst`. -/
def memset (dst : List Nat) (c n : Nat) : List Nat :=
  List.replicate n c ++ dst.drop n

/-- C `memcpy(dst, src, n)`: the first `n` bytes of `dst` are replaced by the
first `n` bytes of `src` (a byte past the modelled end of `src` reads as 0). -/
def memcpy (dst src : List Nat) (n : Nat) : List Nat :=
  (src.take n ++ List.replicate (n - src.length) 0) ++ dst.drop n

/-- Byte `i` of a buffer. -/
def byteAt (b : List Nat) (i : Nat) : Nat := b.getD i 0

/-- A `uint32_t` read from four bytes at offset `off`, host (little-endian) order. -/
def read_u32 (b : List Nat) (off : Nat) : Nat :=
  byteAt b off % 256 + 256 * (byteAt b (off + 1) % 256)
    + 65536 * (byteAt b (off + 2) % 256) + 16777216 * (byteAt b (off + 3) % 256)

/-- The four bytes of a `uint32_t`, host (little-endian) order. -/
def u32_bytes (v : Nat) : List Nat :=
  [v % 256, v / 256 % 256, v / 65536 % 256, v / 16777216 % 256]

/-! ## Data model -/

/-- The C struct `rudp_packet_t`. -/
structure rudp_packet_t where
  type : Nat
  seqnum : Nat
  payload : List Nat
deriving DecidableEq, Repr

/-- The C struct `swnd_entry_t`; `packet = none` is the NULL pointer. -/
structure swnd_entry_t where
  socket : Int
  packet : Option rudp_packet_t
  packetlen : Nat
  last_sent_ms : Nat
  sent_once : Nat
deriving DecidableEq, Repr

/-- The C struct `rudp_conn`. -/
structure rudp_conn where
  sockfd : Int
  addr : List Nat
  addrlen : Nat
deriving DecidableEq, Repr

/-- The process-global variables: the send window with its ring indices
(`sans_backend.c`), the two sequence counters `seq_counters[0..1]`, and the
connection table with the `initialized` flag of `save_rudp_conn`
(`sans_socket.c`).  The window is modelled after `initialize_window` has
allocated it. -/
structure State where
  send_window : List swnd_entry_t
  swnd_head : Nat
  swnd_tail : Nat
  swnd_count : Nat
  send_seq : Nat
  recv_seq : Nat
  rudp_conns : List rudp_conn
  initialized : Bool
deriving DecidableEq, Repr

/-- A slot as `calloc` plus `socket = -1` leaves it, and as the removal loop
resets it. -/
def emptyEntry : swnd_entry_t :=
  { socket := -1, packet := none, packetlen := 0, last_sent_ms := 0, sent_once := 0 }

/-- A zero-initialised `struct rudp_conn` (static storage). -/
def zeroConn : rudp_conn :=
  { sockfd := 0, addr := List.replicate sizeof_sockaddr_storage 0, addrlen := 0 }

/-- Slot `i` of the window array. -/
def slot (w : List swnd_entry_t) (i : Nat) : swnd_entry_t := w.getD i emptyEntry

/-- The function `initialize_window`: 20 empty slots, indices reset. -/
def initialize_window (s : State) : State :=
  { s with
    send_window := List.replicate swnd_size emptyEntry
    swnd_head := 0
    swnd_tail := 0
    swnd_count := 0 }

/-- The state at process start, once `initialize_window` has run: counters 0,
connection table zero-filled and not yet initialised by `save_rudp_conn`. -/
def initState : State :=
  initialize_window
    { send_window := []
      swnd_head := 0
      swnd_tail := 0
      swnd_count := 0
      send_seq := 0
      recv_seq := 0
      rudp_conns := List.replicate MAX_SOCKETS zeroConn
      initialized := false }

/-! ## `sans_backend.c` -/

/-- The function `enqueue_packet`.  With the window full the caller stays in
the polling loop and the call does not return in this state (`none`).
`mallocOk` is the outcome of `malloc`: on failure the slot's socket is reset
to -1 and nothing else changes. -/
def enqueue_packet (s : State) (sock : Int) (buf : List Nat) (len : Nat)
    (mallocOk : Bool) : Option State :=
  if s.swnd_count ≥ swnd_size then none
  else if mallocOk = false then
    some { s with
      send_window :=
        s.send_window.set s.swnd_head { slot s.send_window s.swnd_head with socket := -1 } }
  else
    let copy_len := if len > PKT_LEN then PKT_LEN else len
    let pkt : rudp_packet_t :=
      { type := DAT
        seqnum := s.send_seq
        payload := memcpy (List.replicate PKT_LEN 0) buf copy_len }
    let entry : swnd_entry_t :=
      { socket := sock, packet := some pkt, packetlen := copy_len,
        last_sent_ms := 0, sent_once := 0 }
    some { s with
      send_window := s.send_window.set s.swnd_head entry
      send_seq := (s.send_seq + 1) % UINT32_MOD
      swnd_head := (s.swnd_head + 1) % swnd_size
      swnd_count := s.swnd_count + 1 }

/-- One pass of the removal loop body: free the tail slot and advance. -/
def remove_tail (s : State) : State :=
  { s with
    send_window := s.send_window.set s.swnd_tail emptyEntry
    swnd_tail := (s.swnd_tail + 1) % swnd_size
    swnd_count := s.swnd_count - 1 }

/-- The loop `while (swnd_count > 0) { ... }` shared by `dequeue_packet` and
the ACK branch of `rudp_backend`.  Every pass that continues decrements
`swnd_count`, so `fuel = swnd_count` passes always suffice. -/
def removal_loop : Nat → State → Nat → State
  | 0, s, _ => s
  | fuel + 1, s, seqnum =>
    if s.swnd_count > 0 then
      match (slot s.send_window s.swnd_tail).packet with
      | some p => if p.seqnum ≤ seqnum then removal_loop fuel (remove_tail s) seqnum else s
      | none => s
    else s

/-- The function `dequeue_packet`; the ACK branch of `rudp_backend` runs the
same loop with `ack_seq`. -/
def dequeue_packet (s : State) (seqnum : Nat) : State :=
  if s.swnd_count = 0 then s else removal_loop s.swnd_count s seqnum

/-- A `sendto` call: socket, bytes handed over, destination address and its length. -/
structure Sent where
  sock : Int
  data : List Nat
  addr : List Nat
  addrlen : Nat
deriving DecidableEq, Repr

/-- What one `recvfrom` call on the datagram socket yields: nothing within the
receive timeout (the call returns -1), or a datagram with its source address. -/
inductive RecvOutcome where
  | timeout
  | dgram (data : List Nat) (peer : List Nat) (peerlen : Nat)
deriving DecidableEq, Repr

/-- System call `recvfrom(sock, dst, cap, ...)`: the return value and the
buffer afterwards.  A datagram longer than `cap` is cut to `cap` bytes. -/
def recvfrom (dst : List Nat) (cap : Nat) : RecvOutcome → Int × List Nat
  | .timeout => (-1, dst)
  | .dgram data _ _ => ((min data.length cap : Nat), memcpy dst data (min data.length cap))

/-- The bytes of a `rudp_packet_t` in memory (padding bytes after `type` zero). -/
def packet_bytes (p : rudp_packet_t) : List Nat :=
  [p.type % 256, 0, 0, 0] ++ u32_bytes p.seqnum ++ p.payload

/-- The loop `for (j = 0; j < MAX_SOCKETS; j++) if (rudp_conns[j].sockfd == sock)`:
the first record whose `sockfd` equals `sock`. -/
def find_conn (conns : List rudp_conn) (sock : Int) : Option rudp_conn :=
  conns.find? (fun c => c.sockfd = sock)

/-- The rate-limit test of `rudp_backend` in `unsigned long` arithmetic. -/
def rate_limited (e : swnd_entry_t) (now_ms : Nat) : Bool :=
  e.sent_once ≠ 0 && e.last_sent_ms ≠ 0 &&
    decide ((now_ms + 18446744073709551616 - e.last_sent_ms) % 18446744073709551616 < 100)

/-- Body of the transmission loop of `rudp_backend` for window index `i`. -/
def transmit_slot (now_ms : Nat) (acc : State × List Sent) (i : Nat) : State × List Sent :=
  let s := acc.1
  let idx := (s.swnd_tail + i) % swnd_size
  let entry := slot s.send_window idx
  match entry.packet with
  | none => acc
  | some p =>
    match find_conn s.rudp_conns entry.socket with
    | none => acc
    | some conn =>
      if conn.addrlen = 0 then acc
      else if rate_limited entry now_ms then acc
      else
        let out : Sent :=
          { sock := entry.socket
            data := (packet_bytes p).take (hdr_size + entry.packetlen)
            addr := conn.addr
            addrlen := conn.addrlen }
        ({ s with
            send_window :=
              s.send_window.set idx { entry with last_sent_ms := now_ms, sent_once := 1 } },
          acc.2 ++ [out])

/-- The transmission loop of `rudp_backend`: `for (i = 0; i < swnd_count; i++)`. -/
def transmit_loop (s : State) (now_ms : Nat) : State × List Sent :=
  (List.range s.swnd_count).foldl (transmit_slot now_ms) (s, [])

/-- The timeout branch of `rudp_backend`: every occupied slot of the window is
marked for immediate retransmission. -/
def mark_retransmit (s : State) : State :=
  (List.range s.swnd_count).foldl
    (fun st i =>
      let idx := (st.swnd_tail + i) % swnd_size
      let entry := slot st.send_window idx
      match entry.packet with
      | some _ =>
        { st with
          send_window := st.send_window.set idx { entry with sent_once := 0, last_sent_ms := 0 } }
      | none => st)
    s

/-- The ACK branch of `rudp_backend`, entered with `ack_type` and `ack_seq`
read from the received header: the removal loop runs when the type is `ACK`. -/
def backend_process_header (s : State) (ack_type ack_seq : Nat) : State :=
  if ack_type = ACK then removal_loop s.swnd_count s ack_seq else s

/-- The receive half of one `rudp_backend` iteration.  `ackbuf` is the
uninitialised stack buffer, `o` the outcome of the header-sized `recvfrom` on
the tail slot's socket. -/
def backend_receive (s : State) (ackbuf : List Nat) (o : RecvOutcome) : State :=
  if s.swnd_count > 0 then
    let first_entry := slot s.send_window s.swnd_tail
    match first_entry.packet with
    | none => s
    | some _ =>
      match find_conn s.rudp_conns first_entry.socket with
      | none => s
      | some conn =>
        if conn.addrlen > 0 then
          let r := recvfrom ackbuf hdr_size o
          if r.1 > 0 then
            backend_process_header s (byteAt r.2 type_off % 256) (read_u32 r.2 seqnum_off)
          else mark_retransmit s
        else s
  else s

/-! ## `sans_transport.c` -/

/-- C conversion `(size_t)len` of an `int`. -/
def size_t_of_int (len : Int) : Nat := (len % 18446744073709551616).toNat

/-- The function `sans_send_pkt`: enqueue, then `return len`.  `none` while
`enqueue_packet` blocks on a full window. -/
def sans_send_pkt (s : State) (socket : Int) (buf : List Nat) (len : Int)
    (mallocOk : Bool) : Option (State × Int) :=
  (enqueue_packet s socket buf (size_t_of_int len) mallocOk).map (fun s1 => (s1, len))

/-- Result of `sans_recv_pkt`: return value, caller buffer afterwards, globals
afterwards, and the `sendto` calls made. -/
structure RecvResult where
  ret : Int
  buf : List Nat
  state : State
  sent : List Sent
deriving DecidableEq, Repr

/-- The header-only ACK built in `ackbuf` by `sans_recv_pkt`. -/
def ack_header (seqnum : Nat) : List Nat :=
  let zeroed := memset (List.replicate hdr_size 0) 0 hdr_size
  let typed := zeroed.set type_off ACK
  typed.take seqnum_off ++ u32_bytes seqnum ++ typed.drop (seqnum_off + 4)

/-- The function `sans_recv_pkt`.  `buf` holds the caller buffer's bytes and
`len` its size (a non-negative `int`); `pkt` holds the bytes of the
uninitialised local `rudp_packet_t` before the call; `o` is the outcome of
`recvfrom`. -/
def sans_recv_pkt (s : State) (socket : Int) (buf : List Nat) (len : Nat)
    (pkt : List Nat) (o : RecvOutcome) : RecvResult :=
  let r := recvfrom pkt sizeof_packet o
  let n := r.1
  let pkt1 := r.2
  if n ≤ 0 then { ret := n, buf := buf, state := s, sent := [] }
  else if byteAt pkt1 type_off % 256 = DAT then
    let payload_len : Int := if n - (hdr_size : Int) < 0 then 0 else n - (hdr_size : Int)
    let to_copy : Int := if payload_len > (len : Int) then (len : Int) else payload_len
    let seqnum := read_u32 pkt1 seqnum_off
    let ackbuf := ack_header seqnum
    let sent : List Sent :=
      match find_conn s.rudp_conns socket with
      | some c => [{ sock := socket, data := ackbuf, addr := c.addr, addrlen := c.addrlen }]
      | none => []
    if seqnum = s.recv_seq then
      let cleared := memset buf 0 len
      let filled :=
        if to_copy > 0 then memcpy cleared (pkt1.drop hdr_size) to_copy.toNat else cleared
      { ret := to_copy
        buf := filled
        state := { s with recv_seq := (s.recv_seq + 1) % UINT32_MOD }
        sent := sent }
    else { ret := 0, buf := buf, state := s, sent := sent }
  else { ret := 0, buf := buf, state := s, sent := [] }

/-! ## `sans_socket.c` -/

/-- The search loop of `save_rudp_conn`: the record is written into the first
slot whose `sockfd` is -1; `none` when no slot is free. -/
def save_loop (sockfd : Int) (addr : List Nat) (addrlen : Nat) :
    List rudp_conn → Option (List rudp_conn)
  | [] => none
  | c :: cs =>
    if c.sockfd = -1 then
      some ({ sockfd := sockfd, addr := memcpy c.addr addr addrlen, addrlen := addrlen } :: cs)
    else (save_loop sockfd addr addrlen cs).map (fun t => c :: t)

/-- The function `save_rudp_conn`: first-use initialisation of every `sockfd`
to -1, then the search loop; returns 0, or -1 when the table is full. -/
def save_rudp_conn (s : State) (sockfd : Int) (addr : List Nat) (addrlen : Nat) :
    State × Int :=
  let conns0 :=
    if s.initialized then s.rudp_conns
    else s.rudp_conns.map (fun c => { c with sockfd := -1 })
  match save_loop sockfd addr addrlen conns0 with
  | some conns1 => ({ s with rudp_conns := conns1, initialized := true }, 0)
  | none => ({ s with rudp_conns := conns0, initialized := true }, -1)

/-- The function `sans_disconnect`: every record of `socket` is cleared, then
the result of `close(socket)` is returned. -/
def sans_disconnect (s : State) (socket : Int) (closeRet : Int) : State × Int :=
  ({ s with
      rudp_conns :=
        s.rudp_conns.map (fun c =>
          if c.sockfd = socket then
            { sockfd := -1, addr := memset c.addr 0 sizeof_sockaddr_storage, addrlen := 0 }
          else c) },
    closeRet)

/-- Result of the reliable-datagram branch of `sans_connect`: return value,
globals afterwards, the `sendto` calls in order, and the descriptors closed. -/
structure ConnectResult where
  ret : Int
  state : State
  sent : List Sent
  closed : List Int
deriving DecidableEq, Repr

/-- The handshake packet `{SYN, 0}` as sent: the whole struct. -/
def syn_packet : List Nat :=
  packet_bytes { type := SYN, seqnum := 0, payload := List.replicate PKT_LEN 0 }

/-- The handshake packet `{ACK, 0}` as sent: the whole struct. -/
def ack_packet : List Nat :=
  packet_bytes { type := ACK, seqnum := 0, payload := List.replicate PKT_LEN 0 }

/-- The locals `from` and `fromlen` after a `recvfrom`: overwritten by the
source address of a received datagram, untouched otherwise. -/
def recv_peer (cur : List Nat × Nat) : RecvOutcome → List Nat × Nat
  | .timeout => cur
  | .dgram _ peer peerlen => (peer, peerlen)

/-- The retry loop `for (i = 0; i < retries; i++)` of `sans_connect`.  `synack`
is the local receive buffer, `peer` the locals `from` and `fromlen`,
`outcomes` the results of the successive `recvfrom` calls (none left: the
receive times out), `sent` the `sendto` calls made so far. -/
def connect_loop (retries : Nat) (sockfd : Int) (srv : List Nat) (srvlen : Nat) :
    Nat → Nat → State → List Nat → List Nat × Nat → List RecvOutcome → List Sent →
      ConnectResult
  | 0, _, s, _, _, _, sent => { ret := -1, state := s, sent := sent, closed := [sockfd] }
  | fuel + 1, i, s, synack, peer, outcomes, sent =>
    if i < retries then
      let o := outcomes.headD RecvOutcome.timeout
      let r := recvfrom synack sizeof_packet o
      let peer1 := recv_peer peer o
      if r.1 > 0 ∧ byteAt r.2 type_off % 256 = SYN ||| ACK then
        { ret := sockfd
          state := (save_rudp_conn s sockfd peer1.1 peer1.2).1
          sent :=
            sent ++ [{ sock := sockfd, data := ack_packet, addr := peer1.1, addrlen := peer1.2 }]
          closed := [] }
      else
        let sent1 :=
          if i < retries - 1 then
            sent ++ [{ sock := sockfd, data := syn_packet, addr := srv, addrlen := srvlen }]
          else sent
        connect_loop retries sockfd srv srvlen fuel (i + 1) s r.2 peer1 outcomes.tail sent1
    else { ret := -1, state := s, sent := sent, closed := [sockfd] }

/-- The reliable-datagram branch of `sans_connect`.  `resolved` is the result
of `getaddrinfo` (the server address, `none` on failure), `sockfd` the result
of `socket`, `synack` and `peer` the uninitialised locals `synack` and `from`
(`fromlen` starts as `sizeof(from)`). -/
def sans_connect_rudp (s : State) (resolved : Option (List Nat × Nat)) (sockfd : Int)
    (synack : List Nat) (peer : List Nat) (outcomes : List RecvOutcome) : ConnectResult :=
  match resolved with
  | none => { ret := -1, state := s, sent := [], closed := [] }
  | some (srv, srvlen) =>
    if sockfd < 0 then { ret := -1, state := s, sent := [], closed := [] }
    else
      connect_loop 3 sockfd srv srvlen 3 0 s synack (peer, sizeof_sockaddr_storage) outcomes
        [{ sock := sockfd, data := syn_packet, addr := srv, addrlen := srvlen }]

/-! ## Runs of the send window -/

/-- Ring invariant of the send window together with the numbering of its
occupied slots: offset `j` from the tail holds sequence number
`send_seq - count + j` in 32-bit arithmetic, offsets from `count` on are empty. -/
structure WindowInv (s : State) : Prop where
  len : s.send_window.length = swnd_size
  tail_lt : s.swnd_tail < swnd_size
  count_le : s.swnd_count ≤ swnd_size
  head_eq : s.swnd_head = (s.swnd_tail + s.swnd_count) % swnd_size
  seq_lt : s.send_seq < UINT32_MOD
  occupied : ∀ j, j < s.swnd_count →
    ∃ p, (slot s.send_window ((s.swnd_tail + j) % swnd_size)).packet = some p ∧
      p.seqnum = (s.send_seq + UINT32_MOD - s.swnd_count + j) % UINT32_MOD
  empty : ∀ j, s.swnd_count ≤ j → j < swnd_size →
    slot s.send_window ((s.swnd_tail + j) % swnd_size) = emptyEntry

/-- States the process can reach from `initState`: calls of `enqueue_packet`
that return, cumulative-ACK removal, passes of the transmission loop, the
timeout marking, and arbitrary changes to the globals outside the window
(`recv_seq`, the connection table) made by the socket functions. -/
inductive Reachable : State → Prop where
  | init : Reachable initState
  | enqueue {s s1 : State} (sock : Int) (buf : List Nat) (len : Nat) (mallocOk : Bool) :
      Reachable s → enqueue_packet s sock buf len mallocOk = some s1 → Reachable s1
  | ack {s : State} (a : Nat) : Reachable s → Reachable (dequeue_packet s a)
  | transmit {s : State} (now_ms : Nat) : Reachable s → Reachable (transmit_loop s now_ms).1
  | timeout {s : State} : Reachable s → Reachable (mark_retransmit s)
  | globals {s : State} (r : Nat) (conns : List rudp_conn) (b : Bool) :
      Reachable s → Reachable { s with recv_seq := r, rudp_conns := conns, initialized := b }

/-- Sequence numbers of the occupied slots, read around the ring from the tail. -/
def window_seqs (s : State) : List Nat :=
  (List.range swnd_size).filterMap (fun j =>
    (slot s.send_window ((s.swnd_tail + j) % swnd_size)).packet.map (fun p => p.seqnum))

/-- An event on the send window: a call of `enqueue_packet`, or the engine
processing a cumulative ACK. -/
inductive Op where
  | enqueue (sock : Int) (buf : List Nat) (len : Nat) (mallocOk : Bool)
  | ack (a : Nat)
deriving DecidableEq, Repr

/-- The state after one event; an `enqueue_packet` call blocked on a full
window leaves the state as it is. -/
def apply_op (s : State) : Op → State
  | .enqueue sock buf len mallocOk => (enqueue_packet s sock buf len mallocOk).getD s
  | .ack a => dequeue_packet s a

/-- The sequence number carried by the packet that an event puts into the
window, read back from the slot at the old head; `none` when the event
enqueues no packet. -/
def enqueued_seq (s : State) : Op → Option Nat
  | .enqueue sock buf len true =>
    (enqueue_packet s sock buf len true).bind (fun s1 =>
      (slot s1.send_window s.swnd_head).packet.map (fun p => p.seqnum))
  | .enqueue _ _ _ false => none
  | .ack _ => none

/-- The sequence numbers of the packets enqueued along a run, in order. -/
def trace_seqs : State → List Op → List Nat
  | _, [] => []
  | s, op :: ops => (enqueued_seq s op).toList ++ trace_seqs (apply_op s op) ops

/-- The run made of `n` rounds "enqueue one empty packet on socket 3, then
process an ACK for the highest sequence number". -/
def cycleOps : Nat → List Op
  | 0 => []
  | n + 1 => Op.enqueue 3 [] 0 true :: Op.ack 4294967295 :: cycleOps n

/-- Two states whose windows agree except for the transmission bookkeeping
(`last_sent_ms`, `sent_once`) of occupied slots. -/
def SamePackets (s t : State) : Prop :=
  t.send_window.length = s.send_window.length ∧ t.swnd_head = s.swnd_head ∧
  t.swnd_tail = s.swnd_tail ∧ t.swnd_count = s.swnd_count ∧ t.send_seq = s.send_seq ∧
  ∀ i, (slot t.send_window i).packet = (slot s.send_window i).packet ∧
    ((slot s.send_window i).packet = none → slot t.send_window i = slot s.send_window i)

/-- The state after a run of events. -/
def run (s : State) (ops : List Op) : State := ops.foldl apply_op s

/-- The state after `n` rounds "enqueue, then ACK" followed by two more
enqueues.  For `n = 2^32 - 1` the window holds the last number before the
counter wraps and the first one after. -/
def wrapRun (n : Nat) : State :=
  run initState (cycleOps n ++ [Op.enqueue 3 [] 0 true, Op.enqueue 3 [] 0 true])

/-- The state after three sends of `"A"`, `"BB"`, `"CCC"` on socket 3: the
window holds sequence numbers 0, 1, 2. -/
def threeState : State :=
  run initState
    [Op.enqueue 3 [65] 1 true, Op.enqueue 3 [66, 66] 2 true, Op.enqueue 3 [67, 67, 67] 3 true]

/-- A datagram carrying type `DAT`, sequence number 0 and the payload `"A"`. -/
def dgramA : List Nat := [0, 0, 0, 0, 0, 0, 0, 0, 65]

/-- A datagram carrying type `DAT`, sequence number `2^32 - 1` and the payload `"A"`. -/
def dgramLast : List Nat := [0, 0, 0, 0, 255, 255, 255, 255, 65]

/-- A zero-filled `rudp_packet_t` receive buffer. -/
def zeroPkt : List Nat := List.replicate sizeof_packet 0

/-- A 16-byte peer address (an IPv4 `sockaddr_in`). -/
def peerAddr : List Nat := [2, 0, 31, 144, 10, 0, 0, 1, 0, 0, 0, 0, 0, 0, 0, 0]

/-- The arguments and environment of one `sans_recv_pkt` call: the handle, the
caller's buffer and its size, the bytes of the uninitialised local packet, and
what `recvfrom` yields. -/
structure RecvInput where
  socket : Int
  buf : List Nat
  len : Nat
  pkt : List Nat
  outcome : RecvOutcome

/-- One `sans_recv_pkt` call. -/
def recv_step (s : State) (inp : RecvInput) : RecvResult :=
  sans_recv_pkt s inp.socket inp.buf inp.len inp.pkt inp.outcome

/-- The globals after successive `sans_recv_pkt` calls. -/
def recv_run : State → List RecvInput → State
  | s, [] => s
  | s, inp :: rest => recv_run (recv_step s inp).state rest

/-- The sequence number of the packet a call hands to the caller: the number
the code decoded, for a call that advances `recv_seq`; `none` for a call that
leaves `recv_seq` alone. -/
def delivered_seq (s : State) (inp : RecvInput) : Option Nat :=
  if (recv_step s inp).state.recv_seq ≠ s.recv_seq then
    some (read_u32 (recvfrom inp.pkt sizeof_packet inp.outcome).2 seqnum_off)
  else none

/-- The sequence numbers handed to the caller along successive calls, in order. -/
def delivered_seqs : State → List RecvInput → List Nat
  | _, [] => []
  | s, inp :: rest => (delivered_seq s inp).toList ++ delivered_seqs (recv_step s inp).state rest

/-- A call receiving the header-only `DAT` datagram with sequence number `q`
into a zero-length caller buffer. -/
def dat_input (q : Nat) : RecvInput :=
  { socket := 3, buf := [], len := 0, pkt := [],
    outcome := .dgram ([0, 0, 0, 0] ++ u32_bytes q) [] 0 }

/-- The calls receiving `n` datagrams numbered `q, q+1, ...` in 32-bit
arithmetic, each exactly the one the receiver expects next. -/
def inOrderInputs : Nat → Nat → List RecvInput
  | _, 0 => []
  | q, n + 1 => dat_input (q % UINT32_MOD) :: inOrderInputs (q + 1) n

/-- The state after a completed handshake on socket 3: `save_rudp_conn` has
recorded `peerAddr` in the first table slot. -/
def connState : State := (save_rudp_conn initState 3 peerAddr 16).1

/-- The table record of socket 3 in `connState`. -/
def connRecord : rudp_conn :=
  { sockfd := 3, addr := memcpy (List.replicate sizeof_sockaddr_storage 0) peerAddr 16,
    addrlen := 16 }

/-- The state after ten completed handshakes on sockets 10 to 19: every slot
of the connection table is taken. -/
def fullState : State :=
  (List.range 10).foldl
    (fun (st : State) (i : Nat) => (save_rudp_conn st (10 + (i : Int)) (peerAddr.set 7 i) 16).1)
    initState

/-- The bytes of a header-only `SYN|ACK` packet with sequence number 0. -/
def synackDgram : List Nat := [3, 0, 0, 0, 0, 0, 0, 0]

/-- Out-of-order scenario, sender side: socket 3 is connected and `"A"`, `"B"`
have been sent, so sequence numbers 0 and 1 are outstanding. -/
def oooSender : State :=
  run connState [Op.enqueue 3 [65] 1 true, Op.enqueue 3 [66] 1 true]

/-- Out-of-order scenario: the transmission pass of the engine at clock 1000. -/
def oooPass : State × List Sent := transmit_loop oooSender 1000

/-- Out-of-order scenario, receiver side: a receiver with `recv_seq = 0` gets
the second datagram of the pass (sequence number 1) first. -/
def oooRecv : RecvResult :=
  sans_recv_pkt connState 3 [9, 9, 9, 9] 4 zeroPkt
    (.dgram ((oooPass.2.map (fun d => d.data)).getD 1 []) peerAddr 16)

/-- Out-of-order scenario: the sender's engine receives the ACK the receiver
emitted and processes it. -/
def oooAfterAck : State :=
  backend_receive oooPass.1 zeroPkt
    (.dgram ((oooRecv.sent.map (fun d => d.data)).getD 0 []) peerAddr 16)

/-! ## `http_server.c`: the path helpers

A C string is the list of its bytes before the terminating NUL. -/

/-- The bytes of a string literal. -/
def cstr (t : String) : List Nat := t.toList.map Char.toNat

/-- The scan loop of `path_has_traversal`; `prev_boundary` tells whether the
current character is the first one or follows a `/`.  Bytes: 92 is the
backslash, 46 the dot, 47 the slash, 63 the question mark. -/
def path_scan : Bool → List Nat → Nat
  | _, [] => 0
  | prev_boundary, c :: rest =>
    if c = 92 then 1
    else if c = 46 ∧ prev_boundary = true ∧ rest.head? = some 46 ∧
        (rest.tail.head? = none ∨ rest.tail.head? = some 47 ∨ rest.tail.head? = some 63) then 1
    else path_scan (decide (c = 47)) rest

/-- The function `path_has_traversal`. -/
def path_has_traversal (p : List Nat) : Nat := path_scan true p

/-- The function `sanitize_path`: the contents of `out` as a C string. -/
def sanitize_path (inp : List Nat) (outsz : Nat) : List Nat :=
  let p := match inp with
    | 47 :: rest => rest
    | _ => inp
  if p = [] then (cstr "index.html").take (outsz - 1)
  else (p.takeWhile (fun c => decide (c ≠ 63))).take (outsz - 1)

/-- The update `last_sent_ms = now_ms; sent_once = 1` that follows `sendto`
in the transmission loop. -/
def stamp (now_ms : Nat) (e : swnd_entry_t) : swnd_entry_t :=
  { e with last_sent_ms := now_ms, sent_once := 1 }

/-- Rate-limit scenario: socket 3 is connected and `"A"` has been sent. -/
def rateSender : State := run connState [Op.enqueue 3 [65] 1 true]

/-- Rate-limit scenario: a pass at clock 1000, then a receive that yields an
empty datagram (`recvfrom` returns 0). -/
def rateAfterReset : State :=
  backend_receive (transmit_loop rateSender 1000).1 zeroPkt (.dgram [] peerAddr 16)

/-- A receive outcome that the handshake loop accepts: a non-empty datagram
whose first byte is the type `SYN|ACK`. -/
def synack_outcome : RecvOutcome → Bool
  | .timeout => false
  | .dgram data _ _ => decide (0 < data.length) && decide (byteAt data 0 % 256 = 3)

/-- The transmission loop of `rudp_backend` after its first `k` iterations. -/
def pass_upto (s : State) (now_ms k : Nat) : State × List Sent :=
  (List.range k).foldl (transmit_slot now_ms) (s, [])

/-- Whether iteration `i` of the pass at clock `now_ms` calls `sendto`: the
list of datagrams sent grows by one in that iteration. -/
def sends_at (s : State) (now_ms i : Nat) : Bool :=
  decide ((transmit_slot now_ms (pass_upto s now_ms i) i).2.length
    = (pass_upto s now_ms i).2.length + 1)

/-- What one iteration of the `while (1)` loop of `rudp_backend` reads from
its environment: the clock, the bytes of the stack buffer `ackbuf`, and the
outcome of `recvfrom`. -/
structure BackendInput where
  now_ms : Nat
  ackbuf : List Nat
  outcome : RecvOutcome

/-- One iteration of the `while (1)` loop of `rudp_backend`: the transmission
pass at the clock reading, then the receive half. -/
def backend_step (s : State) (x : BackendInput) : State :=
  backend_receive (transmit_loop s x.now_ms).1 x.ackbuf x.outcome

/-- Successive iterations of the `while (1)` loop of `rudp_backend`. -/
def backend_run (s : State) (xs : List BackendInput) : State :=
  xs.foldl backend_step s

/-- Whether the pass at clock `now_ms` transmits the slot at ring position
`idx`: some iteration `i < swnd_count` with `(swnd_tail + i) % swnd_size = idx`
calls `sendto`. -/
def slot_sent (s : State) (now_ms idx : Nat) : Bool :=
  (List.range s.swnd_count).any
    (fun i => decide ((s.swnd_tail + i) % swnd_size = idx) && sends_at s now_ms i)

/-- Whether no pass of the run `xs` from `s` transmits the slot at ring
position `idx`. -/
def unsent_during (s : State) (idx : Nat) : List BackendInput → Bool
  | [] => true
  | x :: xs => !slot_sent s x.now_ms idx && unsent_during (backend_step s x) idx xs

/-- The bytes of a header-only `SYN` packet with sequence number 0. -/
def synDgram : List Nat := [1, 0, 0, 0, 0, 0, 0, 0]

/-- An iteration at clock `now_ms` whose receive yields a `SYN` header, which
the ACK branch ignores. -/
def synInput (now_ms : Nat) : BackendInput :=
  { now_ms := now_ms, ackbuf := zeroPkt, outcome := .dgram synDgram peerAddr 16 }

/-! ## Lemmas on the ring -/

theorem slot_set (w : List swnd_entry_t) (i j : Nat) (e : swnd_entry_t) :
    slot (w.set i e) j = if i = j ∧ i < w.length then e else slot w j := by
  unfold slot
  rw [List.getD_eq_getElem?_getD, List.getD_eq_getElem?_getD, List.getElem?_set]
  by_cases h : i = j
  · subst h
    by_cases hl : i < w.length
    · simp [hl]
    · simp [hl, List.getElem?_eq_none (Nat.le_of_not_lt hl)]
  · simp [h]

theorem slot_replicate (n i : Nat) : slot (List.replicate n emptyEntry) i = emptyEntry := by
  unfold slot
  rw [List.getD_eq_getElem?_getD, List.getElem?_replicate]
  split <;> rfl

theorem windowInv_init : WindowInv initState where
  len := by simp [initState, initialize_window]
  tail_lt := by decide
  count_le := by decide
  head_eq := by decide
  seq_lt := by decide
  occupied := by
    intro j hj
    exact absurd hj (Nat.not_lt_zero j)
  empty := by
    intro j _ _
    simp [initState, initialize_window, slot_replicate]

theorem ring_inj {t j k : Nat} (hj : j < 20) (hk : k < 20)
    (h : (t + j) % 20 = (t + k) % 20) : j = k := by
  omega

theorem enqueue_some_iff (s : State) (sock : Int) (buf : List Nat) (len : Nat) (ok : Bool) :
    (∃ s1, enqueue_packet s sock buf len ok = some s1) ↔ s.swnd_count < swnd_size := by
  unfold enqueue_packet
  constructor
  · rintro ⟨s1, h⟩
    by_cases hc : s.swnd_count ≥ swnd_size
    · simp [hc] at h
    · exact Nat.lt_of_not_le hc
  · intro h
    have hc : ¬ s.swnd_count ≥ swnd_size := Nat.not_le_of_lt h
    by_cases hm : ok = false
    · simp [hc, hm]
    · simp [hc, hm]

theorem enqueue_fail_eq (s : State) (sock : Int) (buf : List Nat) (len : Nat)
    (hc : s.swnd_count < swnd_size) :
    enqueue_packet s sock buf len false =
      some { s with
        send_window :=
          s.send_window.set s.swnd_head { slot s.send_window s.swnd_head with socket := -1 } } := by
  unfold enqueue_packet
  rw [if_neg (Nat.not_le_of_lt hc)]
  rfl

theorem enqueue_ok_eq (s : State) (sock : Int) (buf : List Nat) (len : Nat)
    (hc : s.swnd_count < swnd_size) :
    enqueue_packet s sock buf len true =
      some { s with
        send_window := s.send_window.set s.swnd_head
          { socket := sock
            packet := some
              { type := DAT
                seqnum := s.send_seq
                payload := memcpy (List.replicate PKT_LEN 0) buf (if len > PKT_LEN then PKT_LEN else len) }
            packetlen := if len > PKT_LEN then PKT_LEN else len
            last_sent_ms := 0
            sent_once := 0 }
        send_seq := (s.send_seq + 1) % UINT32_MOD
        swnd_head := (s.swnd_head + 1) % swnd_size
        swnd_count := s.swnd_count + 1 } := by
  unfold enqueue_packet
  rw [if_neg (Nat.not_le_of_lt hc)]
  rfl

theorem windowInv_enqueue {s s1 : State} {sock : Int} {buf : List Nat} {len : Nat}
    {ok : Bool} (h : WindowInv s) (he : enqueue_packet s sock buf len ok = some s1) :
    WindowInv s1 := by
  have hlt : s.swnd_count < swnd_size := (enqueue_some_iff s sock buf len ok).1 ⟨s1, he⟩
  obtain ⟨hlen, htail, hcount, hhead, hseq, hocc, hemp⟩ := h
  have hheadEmpty : slot s.send_window s.swnd_head = emptyEntry := by
    rw [hhead]
    exact hemp s.swnd_count (Nat.le_refl _) hlt
  cases ok with
  | false =>
    rw [enqueue_fail_eq s sock buf len hlt, hheadEmpty] at he
    simp only [Option.some.injEq] at he
    subst he
    simp only [swnd_size, UINT32_MOD] at *
    refine ⟨by simpa using hlen, htail, hcount, hhead, hseq, ?_, ?_⟩
    · intro j hj
      dsimp only [swnd_size, UINT32_MOD] at hj ⊢
      obtain ⟨p, hp, hq⟩ := hocc j hj
      refine ⟨p, ?_, hq⟩
      rw [slot_set]
      split
      · next hx =>
        exfalso
        have hx1 := hx.1
        rw [hhead] at hx1
        have := ring_inj hlt (by omega) hx1
        omega
      · exact hp
    · intro j hj hj2
      dsimp only [swnd_size, UINT32_MOD] at hj ⊢
      rw [slot_set]
      split
      · rfl
      · exact hemp j hj hj2
  | true =>
    rw [enqueue_ok_eq s sock buf len hlt] at he
    simp only [Option.some.injEq] at he
    subst he
    simp only [swnd_size, UINT32_MOD] at *
    refine ⟨by simpa using hlen, htail, by dsimp only [swnd_size, UINT32_MOD]; omega, by dsimp only [swnd_size, UINT32_MOD]; omega,
      by dsimp only [swnd_size, UINT32_MOD]; omega, ?_, ?_⟩
    · intro j hj
      dsimp only [swnd_size, UINT32_MOD] at hj ⊢
      rw [slot_set]
      by_cases hjc : j = s.swnd_count
      · subst hjc
        rw [if_pos ⟨hhead, by rw [hlen]; omega⟩]
        exact ⟨_, rfl, by dsimp only [swnd_size, UINT32_MOD]; omega⟩
      · have hj' : j < s.swnd_count := by omega
        obtain ⟨p, hp, hq⟩ := hocc j hj'
        have hne : ¬ (s.swnd_head = (s.swnd_tail + j) % 20 ∧
            s.swnd_head < s.send_window.length) := by
          rintro ⟨hx, _⟩
          rw [hhead] at hx
          have := ring_inj hlt (by omega) hx
          omega
        rw [if_neg hne]
        exact ⟨p, hp, by rw [hq]; omega⟩
    · intro j hj hj2
      dsimp only [swnd_size, UINT32_MOD] at hj ⊢
      rw [slot_set]
      have hne : ¬ (s.swnd_head = (s.swnd_tail + j) % 20 ∧
          s.swnd_head < s.send_window.length) := by
        rintro ⟨hx, _⟩
        rw [hhead] at hx
        have := ring_inj hlt hj2 hx
        omega
      rw [if_neg hne]
      exact hemp j (by omega) hj2

theorem idx_shift (t j : Nat) : ((t + 1) % 20 + j) % 20 = (t + (j + 1)) % 20 := by
  omega

theorem tail_ne_shift (t j : Nat) (hj : j + 1 < 20) :
    t ≠ (t + (j + 1)) % 20 := by
  omega

theorem seq_shift (q c j : Nat) (hc : 0 < c) (hcq : c ≤ 20) :
    q + 4294967296 - c + (j + 1) = q + 4294967296 - (c - 1) + j := by
  omega

theorem windowInv_remove_tail {s : State} (h : WindowInv s) (hc : 0 < s.swnd_count) :
    WindowInv (remove_tail s) := by
  obtain ⟨hlen, htail, hcount, hhead, hseq, hocc, hemp⟩ := h
  unfold remove_tail
  simp only [swnd_size, UINT32_MOD] at *
  have hhead2 : s.swnd_head = ((s.swnd_tail + 1) % 20 + (s.swnd_count - 1)) % 20 := by
    rw [hhead]
    clear hocc hemp hhead hseq hlen
    omega
  refine ⟨by simpa using hlen, Nat.mod_lt _ (by decide), by dsimp only [swnd_size]; omega,
    hhead2, hseq, ?_, ?_⟩
  · intro j hj
    dsimp only [swnd_size, UINT32_MOD] at hj ⊢
    rw [slot_set]
    have hj1 : j + 1 < s.swnd_count := by omega
    obtain ⟨p, hp, hq⟩ := hocc (j + 1) hj1
    have hne : ¬ (s.swnd_tail = ((s.swnd_tail + 1) % 20 + j) % 20 ∧
        s.swnd_tail < s.send_window.length) := by
      rintro ⟨hx, _⟩
      rw [idx_shift] at hx
      exact tail_ne_shift s.swnd_tail j (by omega) hx
    rw [if_neg hne, idx_shift]
    refine ⟨p, hp, ?_⟩
    rw [hq, seq_shift s.send_seq s.swnd_count j hc hcount]
  · intro j hj hj2
    dsimp only [swnd_size, UINT32_MOD] at hj hj2 ⊢
    rw [slot_set]
    split
    · rfl
    · next hne =>
      by_cases hlast : j + 1 = 20
      · exfalso
        apply hne
        refine ⟨?_, by rw [hlen]; exact htail⟩
        rw [idx_shift, hlast]
        clear hocc hemp hhead hhead2 hseq hlen hne
        omega
      · rw [idx_shift]
        exact hemp (j + 1) (by omega) (by omega)

theorem windowInv_removal_loop (fuel : Nat) (a : Nat) :
    ∀ s : State, WindowInv s → WindowInv (removal_loop fuel s a) := by
  induction fuel with
  | zero => intro s h; exact h
  | succ n ih =>
    intro s h
    unfold removal_loop
    split
    · next hc =>
      split
      · split
        · exact ih _ (windowInv_remove_tail h hc)
        · exact h
      · exact h
    · exact h

theorem windowInv_dequeue {s : State} (a : Nat) (h : WindowInv s) :
    WindowInv (dequeue_packet s a) := by
  unfold dequeue_packet
  split
  · exact h
  · exact windowInv_removal_loop _ a s h

theorem samePackets_refl (s : State) : SamePackets s s :=
  ⟨rfl, rfl, rfl, rfl, rfl, fun _ => ⟨rfl, fun _ => rfl⟩⟩

theorem samePackets_trans {s t u : State} (h1 : SamePackets s t) (h2 : SamePackets t u) :
    SamePackets s u := by
  obtain ⟨a1, b1, c1, d1, e1, f1⟩ := h1
  obtain ⟨a2, b2, c2, d2, e2, f2⟩ := h2
  refine ⟨a2.trans a1, b2.trans b1, c2.trans c1, d2.trans d1, e2.trans e1, ?_⟩
  intro i
  refine ⟨(f2 i).1.trans (f1 i).1, ?_⟩
  intro hn
  have h3 := (f1 i).2 hn
  have h4 : (slot t.send_window i).packet = none := by rw [h3]; exact hn
  rw [(f2 i).2 h4, h3]

theorem samePackets_touch (s : State) (idx : Nat) (e : swnd_entry_t) (p : rudp_packet_t)
    (hp : (slot s.send_window idx).packet = some p) (he : e.packet = some p) :
    SamePackets s { s with send_window := s.send_window.set idx e } := by
  refine ⟨by simp, rfl, rfl, rfl, rfl, ?_⟩
  intro i
  dsimp only
  rw [slot_set]
  split
  · next hx =>
    rw [← hx.1, hp, he]
    exact ⟨rfl, fun h => by simp at h⟩
  · exact ⟨rfl, fun _ => rfl⟩

theorem windowInv_of_samePackets {s t : State} (h : SamePackets s t) (hi : WindowInv s) :
    WindowInv t := by
  obtain ⟨a, b, c, d, e, f⟩ := h
  obtain ⟨hlen, htail, hcount, hhead, hseq, hocc, hemp⟩ := hi
  refine ⟨by rw [a]; exact hlen, by rw [c]; exact htail, by rw [d]; exact hcount,
    by rw [b, c, d]; exact hhead, by rw [e]; exact hseq, ?_, ?_⟩
  · intro j hj
    rw [d] at hj
    rw [c, d, e, (f _).1]
    exact hocc j hj
  · intro j hj hj2
    rw [d] at hj
    rw [c]
    have h0 := hemp j hj hj2
    rw [(f _).2 (by rw [h0]; rfl)]
    exact h0

theorem samePackets_transmit_slot (now_ms : Nat) (acc : State × List Sent) (i : Nat) :
    SamePackets acc.1 (transmit_slot now_ms acc i).1 := by
  unfold transmit_slot
  dsimp only
  split
  · exact samePackets_refl _
  · next p hp =>
    split
    · exact samePackets_refl _
    · split
      · exact samePackets_refl _
      · split
        · exact samePackets_refl _
        · exact samePackets_touch acc.1 _ _ p hp hp

theorem samePackets_transmit_fold (now_ms : Nat) (l : List Nat) :
    ∀ acc : State × List Sent,
      SamePackets acc.1 (l.foldl (transmit_slot now_ms) acc).1 := by
  induction l with
  | nil => intro acc; exact samePackets_refl _
  | cons i l ih =>
    intro acc
    rw [List.foldl_cons]
    exact samePackets_trans (samePackets_transmit_slot now_ms acc i) (ih _)

theorem samePackets_transmit_loop (s : State) (now_ms : Nat) :
    SamePackets s (transmit_loop s now_ms).1 :=
  samePackets_transmit_fold now_ms _ (s, [])

theorem samePackets_mark_fold (l : List Nat) :
    ∀ s : State,
      SamePackets s (l.foldl
        (fun st i =>
          match (slot st.send_window ((st.swnd_tail + i) % swnd_size)).packet with
          | some _ =>
            { st with
              send_window := st.send_window.set ((st.swnd_tail + i) % swnd_size)
                { slot st.send_window ((st.swnd_tail + i) % swnd_size) with
                  sent_once := 0, last_sent_ms := 0 } }
          | none => st) s) := by
  induction l with
  | nil => intro s; exact samePackets_refl _
  | cons i l ih =>
    intro s
    rw [List.foldl_cons]
    refine samePackets_trans ?_ (ih _)
    split
    · next p hp => exact samePackets_touch s _ _ p hp hp
    · exact samePackets_refl _

theorem samePackets_mark_retransmit (s : State) : SamePackets s (mark_retransmit s) :=
  samePackets_mark_fold _ s

theorem windowInv_of_reachable {s : State} (h : Reachable s) : WindowInv s := by
  induction h with
  | init => exact windowInv_init
  | enqueue sock buf len ok _ he ih => exact windowInv_enqueue ih he
  | ack a _ ih => exact windowInv_dequeue a ih
  | transmit now_ms _ ih => exact windowInv_of_samePackets (samePackets_transmit_loop _ now_ms) ih
  | timeout _ ih => exact windowInv_of_samePackets (samePackets_mark_retransmit _) ih
  | globals r conns b _ ih =>
    obtain ⟨hlen, htail, hcount, hhead, hseq, hocc, hemp⟩ := ih
    exact ⟨hlen, htail, hcount, hhead, hseq, hocc, hemp⟩

/-! ## Runs: the numbering of enqueued packets -/

theorem removal_loop_send_seq (fuel : Nat) (a : Nat) :
    ∀ s : State, (removal_loop fuel s a).send_seq = s.send_seq := by
  induction fuel with
  | zero => intro s; rfl
  | succ n ih =>
    intro s
    unfold removal_loop
    split
    · split
      · split
        · rw [ih]; rfl
        · rfl
      · rfl
    · rfl

theorem dequeue_send_seq (s : State) (a : Nat) : (dequeue_packet s a).send_seq = s.send_seq := by
  unfold dequeue_packet
  split
  · rfl
  · exact removal_loop_send_seq _ a s

theorem head_lt_of_inv {s : State} (h : WindowInv s) : s.swnd_head < s.send_window.length := by
  rw [h.len, h.head_eq]
  exact Nat.mod_lt _ (by decide)

theorem apply_op_enqueue (s : State) (sock : Int) (buf : List Nat) (len : Nat) (ok : Bool) :
    apply_op s (Op.enqueue sock buf len ok) = (enqueue_packet s sock buf len ok).getD s := rfl

theorem apply_op_ack (s : State) (a : Nat) : apply_op s (Op.ack a) = dequeue_packet s a := rfl

theorem enqueued_seq_true (s : State) (sock : Int) (buf : List Nat) (len : Nat) :
    enqueued_seq s (Op.enqueue sock buf len true) =
      (enqueue_packet s sock buf len true).bind (fun s1 =>
        (slot s1.send_window s.swnd_head).packet.map (fun p => p.seqnum)) := rfl

theorem windowInv_apply_op {s : State} (op : Op) (h : WindowInv s) :
    WindowInv (apply_op s op) := by
  cases op with
  | enqueue sock buf len ok =>
    rw [apply_op_enqueue]
    cases he : enqueue_packet s sock buf len ok with
    | none => exact h
    | some s1 => exact windowInv_enqueue h he
  | ack a => exact windowInv_dequeue a h

theorem op_step {s : State} (op : Op) (h : WindowInv s) :
    (enqueued_seq s op = some s.send_seq ∧
        (apply_op s op).send_seq = (s.send_seq + 1) % UINT32_MOD) ∨
      (enqueued_seq s op = none ∧ (apply_op s op).send_seq = s.send_seq) := by
  cases op with
  | ack a => exact Or.inr ⟨rfl, dequeue_send_seq s a⟩
  | enqueue sock buf len ok =>
    by_cases hc : s.swnd_count < swnd_size
    · cases ok with
      | false =>
        refine Or.inr ⟨rfl, ?_⟩
        rw [apply_op_enqueue]
        rw [enqueue_fail_eq s sock buf len hc]
        rfl
      | true =>
        refine Or.inl ⟨?_, ?_⟩
        · rw [enqueued_seq_true]
          rw [enqueue_ok_eq s sock buf len hc]
          simp only [Option.some_bind]
          rw [slot_set, if_pos ⟨rfl, head_lt_of_inv h⟩]
          rfl
        · rw [apply_op_enqueue]
          rw [enqueue_ok_eq s sock buf len hc]
          rfl
    · have hn : enqueue_packet s sock buf len ok = none := by
        unfold enqueue_packet
        rw [if_pos (Nat.le_of_not_lt hc)]
      refine Or.inr ⟨?_, ?_⟩
      · cases ok with
        | false => rfl
        | true =>
          rw [enqueued_seq_true]
          rw [hn]
          rfl
      · rw [apply_op_enqueue]
        rw [hn]
        rfl

theorem trace_seqs_eq (ops : List Op) :
    ∀ s : State, WindowInv s →
      trace_seqs s ops =
        (List.range (trace_seqs s ops).length).map (fun i => (s.send_seq + i) % UINT32_MOD) := by
  induction ops with
  | nil => intro s _; rfl
  | cons op ops ih =>
    intro s h
    have hs := h.seq_lt
    have ih1 := ih (apply_op s op) (windowInv_apply_op op h)
    unfold trace_seqs
    rcases op_step op h with ⟨h1, h2⟩ | ⟨h1, h2⟩
    · rw [h1]
      rw [h2] at ih1
      simp only [Option.toList, List.singleton_append, List.length_cons]
      rw [List.range_succ_eq_map, List.map_cons, List.map_map]
      congr 1
      · simp only [UINT32_MOD] at hs ⊢
        omega
      · rw [ih1]
        simp only [List.length_map, List.length_range]
        apply List.map_congr_left
        intro i _
        simp only [Function.comp, UINT32_MOD]
        omega
    · rw [h1]
      rw [h2] at ih1
      simpa using ih1

theorem removal_loop_remove {s : State} {p : rudp_packet_t} {a : Nat} (fuel : Nat)
    (hc : s.swnd_count > 0) (hp : (slot s.send_window s.swnd_tail).packet = some p)
    (hle : p.seqnum ≤ a) :
    removal_loop (fuel + 1) s a = removal_loop fuel (remove_tail s) a := by
  rw [removal_loop, if_pos hc]
  simp only [hp, if_pos hle]

theorem tail_packet_of_inv {s : State} (h : WindowInv s) (hc : 0 < s.swnd_count) :
    ∃ p, (slot s.send_window s.swnd_tail).packet = some p ∧
      p.seqnum = (s.send_seq + UINT32_MOD - s.swnd_count) % UINT32_MOD := by
  obtain ⟨p, hp, hq⟩ := h.occupied 0 hc
  have hidx : (s.swnd_tail + 0) % swnd_size = s.swnd_tail := Nat.mod_eq_of_lt h.tail_lt
  rw [hidx] at hp
  exact ⟨p, hp, by simpa using hq⟩

theorem cycle_step {s : State} (h : WindowInv s) (hc : s.swnd_count = 0) :
    enqueued_seq s (Op.enqueue 3 [] 0 true) = some s.send_seq ∧
      (apply_op (apply_op s (Op.enqueue 3 [] 0 true)) (Op.ack 4294967295)).swnd_count = 0 := by
  have hlt : s.swnd_count < swnd_size := by rw [hc]; decide
  have h1 : WindowInv (apply_op s (Op.enqueue 3 [] 0 true)) := windowInv_apply_op _ h
  have hc1 : (apply_op s (Op.enqueue 3 [] 0 true)).swnd_count = 1 := by
    rw [apply_op_enqueue]
    rw [enqueue_ok_eq s 3 [] 0 hlt]
    show s.swnd_count + 1 = 1
    rw [hc]
  constructor
  · rw [enqueued_seq_true]
    rw [enqueue_ok_eq s 3 [] 0 hlt]
    simp only [Option.some_bind]
    rw [slot_set, if_pos ⟨rfl, head_lt_of_inv h⟩]
    rfl
  · obtain ⟨p, hp, hq⟩ := tail_packet_of_inv h1 (by omega)
    have hle : p.seqnum ≤ 4294967295 := by
      rw [hq]
      have := Nat.mod_lt ((apply_op s (Op.enqueue 3 [] 0 true)).send_seq + UINT32_MOD -
        (apply_op s (Op.enqueue 3 [] 0 true)).swnd_count) (show UINT32_MOD > 0 by decide)
      simp only [UINT32_MOD] at this ⊢
      omega
    show (dequeue_packet _ 4294967295).swnd_count = 0
    unfold dequeue_packet
    rw [if_neg (by omega), hc1, removal_loop_remove 0 (by omega) hp hle]
    show (remove_tail _).swnd_count = 0
    unfold remove_tail
    show _ - 1 = 0
    omega

theorem cycle_length (n : Nat) :
    ∀ s : State, WindowInv s → s.swnd_count = 0 → (trace_seqs s (cycleOps n)).length = n := by
  induction n with
  | zero => intro s _ _; rfl
  | succ n ih =>
    intro s h hc
    obtain ⟨h1, h2⟩ := cycle_step h hc
    unfold cycleOps
    unfold trace_seqs
    unfold trace_seqs
    rw [h1]
    have h3 := ih _ (windowInv_apply_op (Op.ack 4294967295)
      (windowInv_apply_op (Op.enqueue 3 [] 0 true) h)) h2
    simp only [Option.toList, enqueued_seq, List.singleton_append, List.nil_append,
      List.length_cons, h3]

theorem cycle_trace (n i : Nat) (hi : i < n) :
    (trace_seqs initState (cycleOps n))[i]? = some (i % UINT32_MOD) := by
  have hlen := cycle_length n initState windowInv_init rfl
  have heq := trace_seqs_eq (cycleOps n) initState windowInv_init
  rw [hlen] at heq
  rw [heq, List.getElem?_map, List.getElem?_range hi]
  show some ((initState.send_seq + i) % UINT32_MOD) = _
  have : initState.send_seq = 0 := rfl
  rw [this, Nat.zero_add]

/-! ## The numbering of the window's slots -/

theorem reachable_apply_op {s : State} (op : Op) (h : Reachable s) :
    Reachable (apply_op s op) := by
  cases op with
  | enqueue sock buf len ok =>
    rw [apply_op_enqueue]
    cases he : enqueue_packet s sock buf len ok with
    | none => exact h
    | some s1 => exact Reachable.enqueue sock buf len ok h he
  | ack a => exact Reachable.ack a h

theorem reachable_run (ops : List Op) : ∀ s : State, Reachable s → Reachable (run s ops) := by
  induction ops with
  | nil => intro s h; exact h
  | cons op ops ih =>
    intro s h
    exact ih _ (reachable_apply_op op h)

theorem run_append (s : State) (xs ys : List Op) : run s (xs ++ ys) = run (run s xs) ys := by
  unfold run
  rw [List.foldl_append]

theorem windowInv_run (ops : List Op) : ∀ s : State, WindowInv s → WindowInv (run s ops) := by
  induction ops with
  | nil => intro s h; exact h
  | cons op ops ih =>
    intro s h
    exact ih _ (windowInv_apply_op op h)

theorem apply_enqueue_ok {s : State} (sock : Int) (buf : List Nat) (len : Nat)
    (hc : s.swnd_count < swnd_size) :
    (apply_op s (Op.enqueue sock buf len true)).swnd_count = s.swnd_count + 1 ∧
      (apply_op s (Op.enqueue sock buf len true)).send_seq = (s.send_seq + 1) % UINT32_MOD := by
  rw [apply_op_enqueue]
  rw [enqueue_ok_eq s sock buf len hc]
  exact ⟨rfl, rfl⟩

theorem run_cycle (n : Nat) :
    ∀ s : State, WindowInv s → s.swnd_count = 0 →
      (run s (cycleOps n)).swnd_count = 0 ∧
        (run s (cycleOps n)).send_seq = (s.send_seq + n) % UINT32_MOD := by
  induction n with
  | zero =>
    intro s h hc
    refine ⟨hc, ?_⟩
    show s.send_seq = (s.send_seq + 0) % UINT32_MOD
    rw [Nat.add_zero, Nat.mod_eq_of_lt h.seq_lt]
  | succ n ih =>
    intro s h hc
    have h2 := (cycle_step h hc).2
    have hinv := windowInv_apply_op (Op.ack 4294967295)
      (windowInv_apply_op (Op.enqueue 3 [] 0 true) h)
    obtain ⟨i1, i2⟩ := ih _ hinv h2
    have hseq : (apply_op (apply_op s (Op.enqueue 3 [] 0 true)) (Op.ack 4294967295)).send_seq
        = (s.send_seq + 1) % UINT32_MOD := by
      show (dequeue_packet _ _).send_seq = _
      rw [dequeue_send_seq]
      exact (apply_enqueue_ok 3 [] 0 (by rw [hc]; decide)).2
    refine ⟨i1, ?_⟩
    show (run (apply_op (apply_op s (Op.enqueue 3 [] 0 true)) (Op.ack 4294967295))
      (cycleOps n)).send_seq = _
    rw [i2, hseq]
    simp only [UINT32_MOD]
    omega

theorem window_seqs_upto {s : State} (h : WindowInv s) (n : Nat) (hn : n ≤ swnd_size) :
    (List.range n).filterMap (fun j =>
        (slot s.send_window ((s.swnd_tail + j) % swnd_size)).packet.map (fun p => p.seqnum)) =
      (List.range (min n s.swnd_count)).map
        (fun j => (s.send_seq + UINT32_MOD - s.swnd_count + j) % UINT32_MOD) := by
  induction n with
  | zero => simp
  | succ n ih =>
    have ih1 := ih (Nat.le_of_succ_le hn)
    rw [List.range_succ, List.filterMap_append, ih1]
    by_cases hlt : n < s.swnd_count
    · obtain ⟨p, hp, hq⟩ := h.occupied n hlt
      have h1 : min n s.swnd_count = n := by omega
      have h2 : min (n + 1) s.swnd_count = n + 1 := by omega
      rw [h1, h2, List.range_succ, List.map_append]
      simp only [List.filterMap_cons, List.filterMap_nil, hp, Option.map_some', hq,
        List.map_cons, List.map_nil]
    · have he := h.empty n (Nat.le_of_not_lt hlt) (Nat.lt_of_succ_le hn)
      have h1 : min n s.swnd_count = s.swnd_count := by omega
      have h2 : min (n + 1) s.swnd_count = s.swnd_count := by omega
      rw [h1, h2]
      simp only [List.filterMap_cons, List.filterMap_nil, he, emptyEntry, Option.map_none',
        List.append_nil]

theorem window_seqs_of_inv {s : State} (h : WindowInv s) :
    window_seqs s =
      (List.range s.swnd_count).map
        (fun j => (s.send_seq + UINT32_MOD - s.swnd_count + j) % UINT32_MOD) := by
  unfold window_seqs
  rw [window_seqs_upto h swnd_size (Nat.le_refl _), Nat.min_eq_right h.count_le]

theorem wrapRun_reachable (n : Nat) : Reachable (wrapRun n) :=
  reachable_run _ _ Reachable.init

theorem wrapRun_eq (n : Nat) :
    wrapRun n =
      apply_op (apply_op (run initState (cycleOps n)) (Op.enqueue 3 [] 0 true))
        (Op.enqueue 3 [] 0 true) := by
  unfold wrapRun
  rw [run_append]
  rfl

theorem wrapRun_counters (n : Nat) :
    (wrapRun n).swnd_count = 2 ∧ (wrapRun n).send_seq = (n + 2) % UINT32_MOD := by
  obtain ⟨c0, q0⟩ := run_cycle n initState windowInv_init rfl
  obtain ⟨c1, q1⟩ := apply_enqueue_ok (s := run initState (cycleOps n)) 3 [] 0
    (by rw [c0]; decide)
  obtain ⟨c2, q2⟩ := apply_enqueue_ok
    (s := apply_op (run initState (cycleOps n)) (Op.enqueue 3 [] 0 true)) 3 [] 0
    (by rw [c1, c0]; decide)
  have h0 : initState.send_seq = 0 := rfl
  rw [wrapRun_eq, c2, c1, c0, q2, q1, q0, h0]
  refine ⟨rfl, ?_⟩
  simp only [UINT32_MOD]
  omega

theorem wrapRun_seqs (n : Nat) :
    window_seqs (wrapRun n) =
      (List.range 2).map
        (fun j => ((n + 2) % UINT32_MOD + UINT32_MOD - 2 + j) % UINT32_MOD) := by
  rw [window_seqs_of_inv (windowInv_of_reachable (wrapRun_reachable n)),
    (wrapRun_counters n).1, (wrapRun_counters n).2]

theorem wrapState_seqs : window_seqs (wrapRun 4294967295) = [4294967295, 0] :=
  (wrapRun_seqs 4294967295).trans (by rfl)

/-! ## Claims on the send sequence -/

/-- C1, as amended: along every run of `enqueue_packet` calls and ACK
processing from the initial state, the packet enqueued at position `i`
(counting from 0) carries sequence number `i mod 2^32`; the numbers are
therefore `0, 1, 2, ...` in order until the 32-bit counter wraps. -/
theorem monotone_send_sequence (ops : List Op) :
    trace_seqs initState ops =
      (List.range (trace_seqs initState ops).length).map (fun i => i % UINT32_MOD) := by
  have h := trace_seqs_eq ops initState windowInv_init
  have h0 : initState.send_seq = 0 := rfl
  rw [h0] at h
  simpa using h

/-- C1 fails as stated: in the run of `2^32 + 1` rounds "enqueue, then ACK",
the packet at position `2^32` carries sequence number 0, the number the packet
at position 0 carried already. -/
theorem monotone_send_sequence_wraps :
    (trace_seqs initState (cycleOps 4294967297))[4294967296]? = some 0 ∧
      (trace_seqs initState (cycleOps 4294967297))[0]? = some 0 := by
  constructor
  · rw [cycle_trace 4294967297 4294967296 (by decide)]
    rfl
  · rw [cycle_trace 4294967297 0 (by decide)]
    rfl

/-- C2, as amended: in every reachable state the occupied slots, read from
tail to head, number `swnd_count` and carry the sequence numbers
`b, b+1, ..., b+count-1` taken modulo `2^32`, where `b = send_seq - count`;
when the counter has not wrapped inside the window (`count ≤ send_seq`) these
are the integers `send_seq - count, ..., send_seq - 1`, contiguous and
strictly increasing. -/
theorem window_ordering (s : State) (h : Reachable s) :
    window_seqs s =
        (List.range s.swnd_count).map
          (fun j => (s.send_seq + UINT32_MOD - s.swnd_count + j) % UINT32_MOD) ∧
      (s.swnd_count ≤ s.send_seq →
        window_seqs s = (List.range s.swnd_count).map (fun j => s.send_seq - s.swnd_count + j)) := by
  have hi := windowInv_of_reachable h
  refine ⟨window_seqs_of_inv hi, ?_⟩
  intro hle
  rw [window_seqs_of_inv hi]
  apply List.map_congr_left
  intro j hj
  have hj2 : j < s.swnd_count := List.mem_range.1 hj
  have hs := hi.seq_lt
  simp only [UINT32_MOD] at hs ⊢
  omega

/-- Witness for C2: after three sends the window reads 0, 1, 2. -/
theorem window_ordering_witness :
    Reachable threeState ∧ threeState.swnd_count ≤ threeState.send_seq ∧
      window_seqs threeState =
        (List.range threeState.swnd_count).map
          (fun j => threeState.send_seq - threeState.swnd_count + j) :=
  ⟨reachable_run _ _ Reachable.init, by decide,
    (window_ordering threeState (reachable_run _ _ Reachable.init)).2 (by decide)⟩

/-- C2 fails as stated: `wrapRun (2^32 - 1)` is reachable and its window reads, from
tail to head, `2^32 - 1` and then `0`, which is not increasing. -/
theorem window_ordering_wraps :
    Reachable (wrapRun 4294967295) ∧ window_seqs (wrapRun 4294967295) = [4294967295, 0] :=
  ⟨wrapRun_reachable 4294967295, wrapState_seqs⟩

/-! ## Cumulative ACK removal -/

theorem slot_out_of_range (w : List swnd_entry_t) (i : Nat) (h : w.length ≤ i) :
    slot w i = emptyEntry := by
  unfold slot
  rw [List.getD_eq_getElem?_getD, List.getElem?_eq_none h]
  rfl

theorem ring_offset (t i : Nat) (ht : t < 20) (hi : i < 20) :
    (t + (i + 20 - t) % 20) % 20 = i ∧ (i + 20 - t) % 20 < 20 := by
  omega

theorem memcpy_take (dst src : List Nat) (n : Nat) (h : n ≤ src.length) :
    (memcpy dst src n).take n = src.take n := by
  unfold memcpy
  have h0 : n - src.length = 0 := by omega
  rw [h0, List.replicate_zero, List.append_nil]
  have hl : (src.take n).length = n := by rw [List.length_take]; omega
  rw [List.take_append_eq_append_take, hl, Nat.sub_self, List.take_zero, List.append_nil,
    List.take_take, Nat.min_self]

theorem memcpy_drop (dst src : List Nat) (n : Nat) (h : n ≤ src.length) :
    (memcpy dst src n).drop n = dst.drop n := by
  unfold memcpy
  have h0 : n - src.length = 0 := by omega
  rw [h0, List.replicate_zero, List.append_nil]
  have hl : (src.take n).length = n := by rw [List.length_take]; omega
  rw [List.drop_append_eq_append_drop, hl, Nat.sub_self, List.drop_zero]
  rw [List.drop_eq_nil_of_le (by rw [hl]), List.nil_append]

theorem memcpy_length (dst src : List Nat) (n : Nat) (h2 : n ≤ dst.length) :
    (memcpy dst src n).length = dst.length := by
  unfold memcpy
  simp only [List.length_append, List.length_take, List.length_replicate, List.length_drop]
  omega

theorem enqueue_ok_spec (s : State) (sock : Int) (buf : List Nat) (len : Nat)
    (hlen : s.send_window.length = swnd_size) (hhead : s.swnd_head < swnd_size)
    (hc : s.swnd_count < swnd_size) (hbuf : min len PKT_LEN ≤ buf.length) :
    ∃ s1 p, enqueue_packet s sock buf len true = some s1 ∧
      slot s1.send_window s.swnd_head =
        { socket := sock, packet := some p, packetlen := min len PKT_LEN,
          last_sent_ms := 0, sent_once := 0 } ∧
      p.type = DAT ∧ p.seqnum = s.send_seq ∧
      p.payload.take (min len PKT_LEN) = buf.take (min len PKT_LEN) ∧
      p.payload.drop (min len PKT_LEN) = List.replicate (PKT_LEN - min len PKT_LEN) 0 ∧
      p.payload.length = PKT_LEN ∧
      s1.send_seq = (s.send_seq + 1) % UINT32_MOD ∧
      s1.swnd_head = (s.swnd_head + 1) % swnd_size ∧
      s1.swnd_count = s.swnd_count + 1 ∧
      s1.swnd_tail = s.swnd_tail ∧
      (∀ i, i ≠ s.swnd_head → slot s1.send_window i = slot s.send_window i) ∧
      s1.recv_seq = s.recv_seq ∧ s1.rudp_conns = s.rudp_conns := by
  have hcl : (if len > PKT_LEN then PKT_LEN else len) = min len PKT_LEN := by
    by_cases h : len > PKT_LEN
    · rw [if_pos h]; omega
    · rw [if_neg h]; omega
  rw [enqueue_ok_eq s sock buf len hc, hcl]
  refine ⟨_, ⟨DAT, s.send_seq, memcpy (List.replicate PKT_LEN 0) buf (min len PKT_LEN)⟩, rfl,
    ?_, rfl, rfl, ?_, ?_, ?_, rfl, rfl, rfl, rfl, ?_, rfl, rfl⟩
  · dsimp only
    rw [slot_set, if_pos ⟨rfl, by rw [hlen]; exact hhead⟩]
  · exact memcpy_take _ _ _ hbuf
  · dsimp only
    rw [memcpy_drop _ _ _ hbuf, List.drop_replicate]
  · dsimp only
    rw [memcpy_length _ _ _ (by rw [List.length_replicate]; omega), List.length_replicate]
  · intro i hi
    dsimp only
    rw [slot_set, if_neg (fun hx => hi hx.1.symm)]

/-- C4, as amended: on a window with 20 slots, a valid head index and
`count < 20`, for a buffer holding at least `min(len, 1400)` bytes, a call of
`enqueue_packet(sock, buf, len)` whose packet allocation succeeds returns and
writes at the old head index a slot with `socket = sock`, `type = DAT`,
`seqnum =` old `send_seq`, payload equal to the first `min(len, 1400)` bytes of
`buf` (zero after them), `packetlen = min(len, 1400)`, `last_sent_ms = 0` and
`sent_once = 0`; `send_seq` becomes `(send_seq + 1) mod 2^32`, `head` becomes
`(head + 1) mod 20`, `count` becomes `count + 1`; `tail`, every other slot,
`recv_seq` and the connection table are unchanged. -/
theorem enqueue_postcondition (s : State) (sock : Int) (buf : List Nat) (len : Nat)
    (hlen : s.send_window.length = swnd_size) (hhead : s.swnd_head < swnd_size)
    (hc : s.swnd_count < swnd_size) (hbuf : min len PKT_LEN ≤ buf.length) :
    ∃ s1 p, enqueue_packet s sock buf len true = some s1 ∧
      slot s1.send_window s.swnd_head =
        { socket := sock, packet := some p, packetlen := min len PKT_LEN,
          last_sent_ms := 0, sent_once := 0 } ∧
      p.type = DAT ∧ p.seqnum = s.send_seq ∧
      p.payload.take (min len PKT_LEN) = buf.take (min len PKT_LEN) ∧
      p.payload.drop (min len PKT_LEN) = List.replicate (PKT_LEN - min len PKT_LEN) 0 ∧
      p.payload.length = PKT_LEN ∧
      s1.send_seq = (s.send_seq + 1) % UINT32_MOD ∧
      s1.swnd_head = (s.swnd_head + 1) % swnd_size ∧
      s1.swnd_count = s.swnd_count + 1 ∧
      s1.swnd_tail = s.swnd_tail ∧
      (∀ i, i ≠ s.swnd_head → slot s1.send_window i = slot s.send_window i) ∧
      s1.recv_seq = s.recv_seq ∧ s1.rudp_conns = s.rudp_conns :=
  enqueue_ok_spec s sock buf len hlen hhead hc hbuf

/-- Witness for C4: the first send of `"A"` on socket 3 from the initial state. -/
theorem enqueue_postcondition_witness :
    (initState.send_window.length = swnd_size ∧ initState.swnd_head < swnd_size ∧
        initState.swnd_count < swnd_size ∧ min 1 PKT_LEN ≤ [65].length) ∧
      ∃ s1 p, enqueue_packet initState 3 [65] 1 true = some s1 ∧
        slot s1.send_window initState.swnd_head =
          { socket := 3, packet := some p, packetlen := min 1 PKT_LEN,
            last_sent_ms := 0, sent_once := 0 } ∧
        p.type = DAT ∧ p.seqnum = initState.send_seq ∧
        p.payload.take (min 1 PKT_LEN) = [65].take (min 1 PKT_LEN) ∧
        p.payload.drop (min 1 PKT_LEN) = List.replicate (PKT_LEN - min 1 PKT_LEN) 0 ∧
        p.payload.length = PKT_LEN ∧
        s1.send_seq = (initState.send_seq + 1) % UINT32_MOD ∧
        s1.swnd_head = (initState.swnd_head + 1) % swnd_size ∧
        s1.swnd_count = initState.swnd_count + 1 ∧
        s1.swnd_tail = initState.swnd_tail ∧
        (∀ i, i ≠ initState.swnd_head → slot s1.send_window i = slot initState.send_window i) ∧
        s1.recv_seq = initState.recv_seq ∧ s1.rudp_conns = initState.rudp_conns :=
  ⟨⟨by decide, by decide, by decide, by decide⟩,
    enqueue_postcondition initState 3 [65] 1 (by decide) (by decide) (by decide) (by decide)⟩

/-- C4 fails as stated in two ways: with `send_seq = 2^32 - 1` the counter
becomes 0, not `2^32`; and when `malloc` fails no slot is written and `count`
stays as it was. -/
theorem enqueue_postcondition_fails :
    (enqueue_packet { initState with send_seq := 4294967295 } 3 [65] 1 true).map
        (fun t => t.send_seq) = some 0 ∧
      (enqueue_packet initState 3 [65] 1 false).map
        (fun t => (t.swnd_count, (slot t.send_window 0).packet)) = some (0, none) := by
  constructor
  · decide
  · decide

/-! ## `sans_recv_pkt` -/

theorem to_copy_eq (n len : Nat) :
    (if (if (n : Int) - ((8 : Nat) : Int) < 0 then (0 : Int) else (n : Int) - ((8 : Nat) : Int))
          > (len : Int) then (len : Int)
      else (if (n : Int) - ((8 : Nat) : Int) < 0 then (0 : Int) else (n : Int) - ((8 : Nat) : Int)))
      = ((min (n - 8) len : Nat) : Int) := by
  split_ifs <;> omega

/-- The ACKs `sans_recv_pkt` sends for a `DAT` packet carrying `seqnum`. -/
theorem recv_dat (s : State) (socket : Int) (buf : List Nat) (len : Nat) (pkt data peer : List Nat)
    (peerlen : Nat) (hn : 0 < data.length)
    (ht : byteAt (recvfrom pkt sizeof_packet (.dgram data peer peerlen)).2 type_off % 256 = DAT) :
    sans_recv_pkt s socket buf len pkt (.dgram data peer peerlen) =
      if read_u32 (recvfrom pkt sizeof_packet (.dgram data peer peerlen)).2 seqnum_off
          = s.recv_seq then
        { ret := ((min (min data.length sizeof_packet - hdr_size) len : Nat) : Int)
          buf :=
            memcpy (memset buf 0 len)
              ((recvfrom pkt sizeof_packet (.dgram data peer peerlen)).2.drop hdr_size)
              (min (min data.length sizeof_packet - hdr_size) len)
          state := { s with recv_seq := (s.recv_seq + 1) % UINT32_MOD }
          sent :=
            match find_conn s.rudp_conns socket with
            | some c =>
              [{ sock := socket
                 data := ack_header
                   (read_u32 (recvfrom pkt sizeof_packet (.dgram data peer peerlen)).2 seqnum_off)
                 addr := c.addr, addrlen := c.addrlen }]
            | none => [] }
      else
        { ret := 0, buf := buf, state := s
          sent :=
            match find_conn s.rudp_conns socket with
            | some c =>
              [{ sock := socket
                 data := ack_header
                   (read_u32 (recvfrom pkt sizeof_packet (.dgram data peer peerlen)).2 seqnum_off)
                 addr := c.addr, addrlen := c.addrlen }]
            | none => [] } := by
  have hpos : ¬ ((recvfrom pkt sizeof_packet (.dgram data peer peerlen)).1 ≤ 0) := by
    show ¬ (((min data.length sizeof_packet : Nat) : Int) ≤ 0)
    have : 0 < sizeof_packet := by decide
    omega
  unfold sans_recv_pkt
  simp only [hpos, if_false, ht, if_true]
  have h1 : (recvfrom pkt sizeof_packet (.dgram data peer peerlen)).1
      = ((min data.length sizeof_packet : Nat) : Int) := rfl
  rw [h1]
  have h8 : hdr_size = 8 := rfl
  simp only [h8, to_copy_eq]
  split
  · congr 1
    by_cases hk : 0 < min (min data.length sizeof_packet - 8) len
    · have hk' : ((min (min data.length sizeof_packet - 8) len : Nat) : Int) > 0 := by omega
      rw [if_pos hk']
      rfl
    · have hk' : ¬ ((min (min data.length sizeof_packet - 8) len : Nat) : Int) > 0 := by omega
      have hz : min (min data.length sizeof_packet - 8) len = 0 := by omega
      rw [if_neg hk', hz]
      unfold memcpy
      simp
  · rfl

theorem recvfrom_buf (pkt data peer : List Nat) (peerlen cap : Nat) :
    (recvfrom pkt cap (.dgram data peer peerlen)).2 =
      data.take (min data.length cap) ++ pkt.drop (min data.length cap) := by
  show memcpy pkt data (min data.length cap) = _
  unfold memcpy
  have h0 : min data.length cap - data.length = 0 := by omega
  rw [h0, List.replicate_zero, List.append_nil]

theorem payload_take (data rest : List Nat) (n k : Nat) (hn : n ≤ data.length)
    (hk : k ≤ n - 8) :
    ((data.take n ++ rest).drop 8).take k = (data.drop 8).take k := by
  by_cases hz : k = 0
  · rw [hz, List.take_zero, List.take_zero]
  · have hl : (data.take n).length = n := by rw [List.length_take]; omega
    rw [List.drop_append_of_le_length (by rw [hl]; omega),
      List.take_append_of_le_length (by rw [List.length_drop, hl]; exact hk),
      List.drop_take, List.take_take, Nat.min_eq_left hk]

theorem deliver_buf (buf data rest : List Nat) (len n k : Nat) (hn : n ≤ data.length)
    (hk : k ≤ n - 8) (hkl : k ≤ len) :
    memcpy (memset buf 0 len) ((data.take n ++ rest).drop 8) k =
      (data.drop 8).take k ++ List.replicate (len - k) 0 ++ buf.drop len := by
  have hl : (data.take n).length = n := by rw [List.length_take]; omega
  have hsrc : k ≤ ((data.take n ++ rest).drop 8).length := by
    rw [List.length_drop, List.length_append, hl]
    omega
  unfold memcpy memset
  have h0 : k - ((data.take n ++ rest).drop 8).length = 0 := by omega
  rw [h0, List.replicate_zero, List.append_nil, payload_take data rest n k hn hk,
    List.drop_append_of_le_length (by rw [List.length_replicate]; exact hkl),
    List.drop_replicate, List.append_assoc]

theorem byteAt_recv (pkt data peer : List Nat) (peerlen i : Nat)
    (hi : i < min data.length sizeof_packet) :
    byteAt (recvfrom pkt sizeof_packet (.dgram data peer peerlen)).2 i = byteAt data i := by
  rw [recvfrom_buf]
  unfold byteAt
  rw [List.getD_eq_getElem?_getD, List.getD_eq_getElem?_getD,
    List.getElem?_append_left (by rw [List.length_take]; omega), List.getElem?_take_of_lt hi]

theorem recv_header (pkt data peer : List Nat) (peerlen : Nat) (hh : hdr_size ≤ data.length) :
    byteAt (recvfrom pkt sizeof_packet (.dgram data peer peerlen)).2 type_off
        = byteAt data type_off ∧
      read_u32 (recvfrom pkt sizeof_packet (.dgram data peer peerlen)).2 seqnum_off
        = read_u32 data seqnum_off := by
  have h8 : hdr_size = 8 := rfl
  have hsz : sizeof_packet = 1408 := rfl
  rw [h8] at hh
  have hb : ∀ i, i < 8 →
      byteAt (recvfrom pkt sizeof_packet (.dgram data peer peerlen)).2 i = byteAt data i := by
    intro i hi
    exact byteAt_recv pkt data peer peerlen i (by rw [hsz]; omega)
  constructor
  · exact hb 0 (by decide)
  · unfold read_u32 seqnum_off
    rw [hb 4 (by decide), hb (4 + 1) (by decide), hb (4 + 2) (by decide),
      hb (4 + 3) (by decide)]

/-- C5, as amended: for every received datagram that carries a full header,
has type `DAT` and a sequence number equal to `recv_seq`, and every caller
buffer of size `len`, `sans_recv_pkt` zero-fills the whole caller buffer,
copies the first `min(n - header_size, len)` payload bytes of the datagram to
its start, sets `recv_seq` to `(recv_seq + 1) mod 2^32`, changes no other
global, and returns `min(n - header_size, len)`; `n` is the number of bytes
`recvfrom` returns. -/
theorem in_sequence_receive (s : State) (socket : Int) (buf : List Nat) (len : Nat)
    (pkt data peer : List Nat) (peerlen : Nat) (hh : hdr_size ≤ data.length)
    (ht : byteAt data type_off % 256 = DAT)
    (hs : read_u32 data seqnum_off = s.recv_seq) :
    (sans_recv_pkt s socket buf len pkt (.dgram data peer peerlen)).ret =
        ((min (min data.length sizeof_packet - hdr_size) len : Nat) : Int) ∧
      (sans_recv_pkt s socket buf len pkt (.dgram data peer peerlen)).buf =
        (data.drop hdr_size).take (min (min data.length sizeof_packet - hdr_size) len) ++
          List.replicate (len - min (min data.length sizeof_packet - hdr_size) len) 0 ++
          buf.drop len ∧
      (sans_recv_pkt s socket buf len pkt (.dgram data peer peerlen)).state =
        { s with recv_seq := (s.recv_seq + 1) % UINT32_MOD } := by
  obtain ⟨e1, e2⟩ := recv_header pkt data peer peerlen hh
  have hn : 0 < data.length := Nat.lt_of_lt_of_le (by decide) hh
  rw [recv_dat s socket buf len pkt data peer peerlen hn (by rw [e1]; exact ht),
    if_pos (by rw [e2]; exact hs)]
  refine ⟨rfl, ?_, rfl⟩
  dsimp only
  rw [recvfrom_buf]
  exact deliver_buf buf data _ len _ _ (Nat.min_le_left _ _) (Nat.min_le_left _ _)
    (Nat.min_le_right _ _)

/-- Witness for C5: the datagram `DAT, 0, "A"` received in the initial state
with a 4-byte caller buffer. -/
theorem in_sequence_receive_witness :
    (hdr_size ≤ dgramA.length ∧ byteAt dgramA type_off % 256 = DAT ∧
        read_u32 dgramA seqnum_off = initState.recv_seq) ∧
      (sans_recv_pkt initState 3 [9, 9, 9, 9] 4 zeroPkt (.dgram dgramA [] 0)).ret =
        ((min (min dgramA.length sizeof_packet - hdr_size) 4 : Nat) : Int) ∧
      (sans_recv_pkt initState 3 [9, 9, 9, 9] 4 zeroPkt (.dgram dgramA [] 0)).buf =
        (dgramA.drop hdr_size).take (min (min dgramA.length sizeof_packet - hdr_size) 4) ++
          List.replicate (4 - min (min dgramA.length sizeof_packet - hdr_size) 4) 0 ++
          [9, 9, 9, 9].drop 4 ∧
      (sans_recv_pkt initState 3 [9, 9, 9, 9] 4 zeroPkt (.dgram dgramA [] 0)).state =
        { initState with recv_seq := (initState.recv_seq + 1) % UINT32_MOD } :=
  ⟨⟨by decide, by decide, by decide⟩,
    in_sequence_receive initState 3 [9, 9, 9, 9] 4 zeroPkt dgramA [] 0
      (by decide) (by decide) (by decide)⟩

/-- C5 fails as stated: with `recv_seq = 2^32 - 1` an in-sequence datagram
leaves `recv_seq = 0`, not `2^32`. -/
theorem in_sequence_receive_wraps :
    (sans_recv_pkt { initState with recv_seq := 4294967295 } 3 [9, 9, 9, 9] 4 zeroPkt
        (.dgram dgramLast [] 0)).state.recv_seq = 0 ∧
      (sans_recv_pkt { initState with recv_seq := 4294967295 } 3 [9, 9, 9, 9] 4 zeroPkt
        (.dgram dgramLast [] 0)).ret = 1 := by
  constructor
  · decide
  · decide

theorem ack_header_eq (q : Nat) :
    ack_header q =
      [2, 0, 0, 0, q % 256, q / 256 % 256, q / 65536 % 256, q / 16777216 % 256] := rfl

theorem read_u32_lt (b : List Nat) (off : Nat) : read_u32 b off < UINT32_MOD := by
  unfold read_u32 UINT32_MOD
  omega

theorem ack_header_seq (q : Nat) (hq : q < UINT32_MOD) :
    read_u32 (ack_header q) seqnum_off = q := by
  rw [ack_header_eq]
  unfold UINT32_MOD at hq
  show q % 256 % 256 + 256 * (q / 256 % 256 % 256) + 65536 * (q / 65536 % 256 % 256)
    + 16777216 * (q / 16777216 % 256 % 256) = q
  omega

/-- C6: for a received datagram of `n > 0` bytes that the code decodes as type
`DAT` with a sequence number different from `recv_seq` (a duplicate or an
out-of-order packet), on a handle whose first record in the connection table
is `c`, `sans_recv_pkt` sends exactly one datagram, to `c`'s address: a
header-only packet (`header_size` bytes) of type `ACK` whose sequence number is
the received one; the globals (so `recv_seq`) and the caller's buffer are
unchanged and the return value is 0. -/
theorem duplicate_receive (s : State) (socket : Int) (buf : List Nat) (len : Nat)
    (pkt data peer : List Nat) (peerlen : Nat) (c : rudp_conn) (hn : 0 < data.length)
    (ht : byteAt (recvfrom pkt sizeof_packet (.dgram data peer peerlen)).2 type_off % 256 = DAT)
    (hs : read_u32 (recvfrom pkt sizeof_packet (.dgram data peer peerlen)).2 seqnum_off
      ≠ s.recv_seq)
    (hc : find_conn s.rudp_conns socket = some c) :
    (sans_recv_pkt s socket buf len pkt (.dgram data peer peerlen)).sent =
        [{ sock := socket
           data := ack_header
             (read_u32 (recvfrom pkt sizeof_packet (.dgram data peer peerlen)).2 seqnum_off)
           addr := c.addr, addrlen := c.addrlen }] ∧
      (ack_header
        (read_u32 (recvfrom pkt sizeof_packet (.dgram data peer peerlen)).2 seqnum_off)).length
          = hdr_size ∧
      byteAt (ack_header
        (read_u32 (recvfrom pkt sizeof_packet (.dgram data peer peerlen)).2 seqnum_off)) type_off
          = ACK ∧
      read_u32 (ack_header
        (read_u32 (recvfrom pkt sizeof_packet (.dgram data peer peerlen)).2 seqnum_off)) seqnum_off
          = read_u32 (recvfrom pkt sizeof_packet (.dgram data peer peerlen)).2 seqnum_off ∧
      (sans_recv_pkt s socket buf len pkt (.dgram data peer peerlen)).state = s ∧
      (sans_recv_pkt s socket buf len pkt (.dgram data peer peerlen)).buf = buf ∧
      (sans_recv_pkt s socket buf len pkt (.dgram data peer peerlen)).ret = 0 := by
  rw [recv_dat s socket buf len pkt data peer peerlen hn ht, if_neg hs]
  refine ⟨?_, rfl, rfl, ack_header_seq _ (read_u32_lt _ _), rfl, rfl, rfl⟩
  dsimp only
  rw [hc]

/-- Witness for C6: in a state that has delivered one packet (`recv_seq = 1`)
and records socket 3, the datagram `DAT, 0, "A"` arrives again. -/
theorem duplicate_receive_witness :
    (0 < dgramA.length ∧
        byteAt (recvfrom zeroPkt sizeof_packet (.dgram dgramA [] 0)).2 type_off % 256 = DAT ∧
        read_u32 (recvfrom zeroPkt sizeof_packet (.dgram dgramA [] 0)).2 seqnum_off
          ≠ ({ connState with recv_seq := 1 } : State).recv_seq ∧
        find_conn ({ connState with recv_seq := 1 } : State).rudp_conns 3
          = some connRecord) ∧
      (sans_recv_pkt { connState with recv_seq := 1 } 3 [9, 9] 2
          zeroPkt (.dgram dgramA [] 0)).sent =
        [{ sock := 3, data := [2, 0, 0, 0, 0, 0, 0, 0], addr := connRecord.addr, addrlen := 16 }] ∧
      (sans_recv_pkt { connState with recv_seq := 1 } 3 [9, 9] 2
          zeroPkt (.dgram dgramA [] 0)).ret = 0 :=
  ⟨⟨by decide, by decide, by decide, by decide⟩,
    (duplicate_receive { connState with recv_seq := 1 } 3 [9, 9] 2
      zeroPkt dgramA [] 0 connRecord
      (by decide) (by decide) (by decide) (by decide)).1.trans (by decide),
    (duplicate_receive { connState with recv_seq := 1 } 3 [9, 9] 2
      zeroPkt dgramA [] 0 connRecord
      (by decide) (by decide) (by decide) (by decide)).2.2.2.2.2.2⟩

/-! ## Runs of the receiver -/

theorem recv_not_dat (s : State) (socket : Int) (buf : List Nat) (len : Nat) (pkt : List Nat)
    (o : RecvOutcome) (ht : ¬ byteAt (recvfrom pkt sizeof_packet o).2 type_off % 256 = DAT) :
    (sans_recv_pkt s socket buf len pkt o).state = s ∧
      (sans_recv_pkt s socket buf len pkt o).buf = buf := by
  unfold sans_recv_pkt
  dsimp only
  split_ifs <;> exact ⟨rfl, rfl⟩

theorem recv_nothing (s : State) (socket : Int) (buf : List Nat) (len : Nat) (pkt : List Nat)
    (o : RecvOutcome) (hn : (recvfrom pkt sizeof_packet o).1 ≤ 0) :
    (sans_recv_pkt s socket buf len pkt o).state = s ∧
      (sans_recv_pkt s socket buf len pkt o).buf = buf := by
  unfold sans_recv_pkt
  dsimp only
  rw [if_pos hn]
  exact ⟨rfl, rfl⟩

/-- Every call either leaves globals and caller buffer alone, or is an
in-sequence delivery: the decoded number is `recv_seq`, which then advances. -/
theorem recv_step_cases (s : State) (inp : RecvInput) :
    ((recv_step s inp).state = s ∧ (recv_step s inp).buf = inp.buf) ∨
      (read_u32 (recvfrom inp.pkt sizeof_packet inp.outcome).2 seqnum_off = s.recv_seq ∧
        (recv_step s inp).state = { s with recv_seq := (s.recv_seq + 1) % UINT32_MOD } ∧
        (recv_step s inp).buf =
          memcpy (memset inp.buf 0 inp.len)
            ((recvfrom inp.pkt sizeof_packet inp.outcome).2.drop hdr_size)
            (min ((recvfrom inp.pkt sizeof_packet inp.outcome).1.toNat - hdr_size) inp.len)) := by
  unfold recv_step
  by_cases hn : (recvfrom inp.pkt sizeof_packet inp.outcome).1 ≤ 0
  · exact Or.inl (recv_nothing s _ _ _ _ _ hn)
  · by_cases ht : byteAt (recvfrom inp.pkt sizeof_packet inp.outcome).2 type_off % 256 = DAT
    · cases ho : inp.outcome with
      | timeout =>
        rw [ho] at hn
        exact absurd (show (-1 : Int) ≤ 0 by decide) hn
      | dgram data peer peerlen =>
        rw [ho] at hn ht
        have hpos : 0 < data.length := by
          by_contra hz
          apply hn
          show ((min data.length sizeof_packet : Nat) : Int) ≤ 0
          omega
        rw [recv_dat s inp.socket inp.buf inp.len inp.pkt data peer peerlen hpos ht]
        by_cases hs : read_u32 (recvfrom inp.pkt sizeof_packet (.dgram data peer peerlen)).2
            seqnum_off = s.recv_seq
        · rw [if_pos hs]
          exact Or.inr ⟨hs, rfl, rfl⟩
        · rw [if_neg hs]
          exact Or.inl ⟨rfl, rfl⟩
    · exact Or.inl (recv_not_dat s _ _ _ _ _ ht)

theorem succ_mod_ne (r : Nat) : (r + 1) % 4294967296 ≠ r := by
  omega

theorem delivered_step (s : State) (inp : RecvInput) :
    (delivered_seq s inp = none ∧ (recv_step s inp).state = s ∧
        (recv_step s inp).buf = inp.buf) ∨
      (delivered_seq s inp = some s.recv_seq ∧
        (recv_step s inp).state = { s with recv_seq := (s.recv_seq + 1) % UINT32_MOD } ∧
        (recv_step s inp).buf =
          memcpy (memset inp.buf 0 inp.len)
            ((recvfrom inp.pkt sizeof_packet inp.outcome).2.drop hdr_size)
            (min ((recvfrom inp.pkt sizeof_packet inp.outcome).1.toNat - hdr_size) inp.len)) := by
  rcases recv_step_cases s inp with ⟨h1, h2⟩ | ⟨h1, h2, h3⟩
  · refine Or.inl ⟨?_, h1, h2⟩
    unfold delivered_seq
    rw [h1, if_neg (fun h => h rfl)]
  · refine Or.inr ⟨?_, h2, h3⟩
    unfold delivered_seq
    rw [h2, h1]
    exact if_pos (succ_mod_ne s.recv_seq)

theorem delivered_seqs_eq (ins : List RecvInput) :
    ∀ s : State, s.recv_seq < UINT32_MOD →
      delivered_seqs s ins =
          (List.range (delivered_seqs s ins).length).map
            (fun i => (s.recv_seq + i) % UINT32_MOD) ∧
        (recv_run s ins).recv_seq = (s.recv_seq + (delivered_seqs s ins).length) % UINT32_MOD := by
  induction ins with
  | nil =>
    intro s hr
    refine ⟨rfl, ?_⟩
    show s.recv_seq = (s.recv_seq + 0) % UINT32_MOD
    rw [Nat.add_zero, Nat.mod_eq_of_lt hr]
  | cons inp rest ih =>
    intro s hr
    unfold delivered_seqs recv_run
    rcases delivered_step s inp with ⟨h1, h2, _⟩ | ⟨h1, h2, _⟩
    · rw [h1, h2]
      simpa using ih s hr
    · rw [h1, h2]
      have hr1 : ({ s with recv_seq := (s.recv_seq + 1) % UINT32_MOD } : State).recv_seq
          < UINT32_MOD := Nat.mod_lt _ (by decide)
      obtain ⟨i1, i2⟩ := ih _ hr1
      simp only [Option.toList, List.singleton_append, List.length_cons]
      constructor
      · rw [List.range_succ_eq_map, List.map_cons, List.map_map]
        congr 1
        · simp only [UINT32_MOD] at hr ⊢
          omega
        · rw [i1]
          simp only [List.length_map, List.length_range]
          apply List.map_congr_left
          intro i _
          simp only [Function.comp, UINT32_MOD]
          omega
      · rw [i2]
        simp only [UINT32_MOD]
        omega

theorem dat_input_decode (q : Nat) (hq : q < UINT32_MOD) :
    (recvfrom (dat_input q).pkt sizeof_packet (dat_input q).outcome).1 = 8 ∧
      byteAt (recvfrom (dat_input q).pkt sizeof_packet (dat_input q).outcome).2 type_off % 256
        = DAT ∧
      read_u32 (recvfrom (dat_input q).pkt sizeof_packet (dat_input q).outcome).2 seqnum_off
        = q := by
  refine ⟨rfl, rfl, ?_⟩
  show q % 256 % 256 + 256 * (q / 256 % 256 % 256) + 65536 * (q / 65536 % 256 % 256)
    + 16777216 * (q / 16777216 % 256 % 256) = q
  unfold UINT32_MOD at hq
  omega

theorem dat_input_delivers (s : State) (q : Nat) (hq : q < UINT32_MOD) (hs : s.recv_seq = q) :
    delivered_seq s (dat_input q) = some q ∧
      (recv_step s (dat_input q)).state.recv_seq = (q + 1) % UINT32_MOD := by
  obtain ⟨_, d2, d3⟩ := dat_input_decode q hq
  have hstate : (recv_step s (dat_input q)).state =
      { s with recv_seq := (s.recv_seq + 1) % UINT32_MOD } := by
    unfold recv_step
    have hrec := recv_dat s (dat_input q).socket (dat_input q).buf (dat_input q).len
      (dat_input q).pkt ([0, 0, 0, 0] ++ u32_bytes q) [] 0 (by simp [u32_bytes]) d2
    have ho : (dat_input q).outcome = .dgram ([0, 0, 0, 0] ++ u32_bytes q) [] 0 := rfl
    rw [ho, hrec, if_pos (by rw [hs]; exact d3)]
  constructor
  · unfold delivered_seq
    rw [hstate, d3]
    exact if_pos (by rw [hs]; exact succ_mod_ne q)
  · rw [hstate, hs]

theorem inOrder_length (n : Nat) :
    ∀ (s : State) (q : Nat), s.recv_seq = q % UINT32_MOD →
      (delivered_seqs s (inOrderInputs q n)).length = n := by
  induction n with
  | zero => intro s q _; rfl
  | succ n ih =>
    intro s q hs
    have hq : q % UINT32_MOD < UINT32_MOD := Nat.mod_lt _ (by decide)
    obtain ⟨h1, h2⟩ := dat_input_delivers s (q % UINT32_MOD) hq hs
    unfold inOrderInputs delivered_seqs
    rw [h1]
    have h3 := ih (recv_step s (dat_input (q % UINT32_MOD))).state (q + 1)
      (by rw [h2]; simp only [UINT32_MOD]; omega)
    simp only [Option.toList, List.singleton_append, List.length_cons, h3]

theorem inOrder_trace (n i : Nat) (hi : i < n) :
    (delivered_seqs initState (inOrderInputs 0 n))[i]? = some (i % UINT32_MOD) := by
  have hlen := inOrder_length n initState 0 rfl
  have heq := (delivered_seqs_eq (inOrderInputs 0 n) initState (by decide)).1
  rw [hlen] at heq
  rw [heq, List.getElem?_map, List.getElem?_range hi]
  show some ((initState.recv_seq + i) % UINT32_MOD) = _
  have : initState.recv_seq = 0 := rfl
  rw [this, Nat.zero_add]

/-- C7, as amended: starting from `recv_seq = 0`, for every finite sequence
of `sans_recv_pkt` calls (any `recvfrom` outcomes, types, sequence numbers,
duplicates and reorderings): each call either leaves the globals and the
caller's buffer untouched, or delivers the packet numbered `recv_seq`
(zero-fill, copy of `min(payload_len, len)` payload bytes) and advances
`recv_seq`; the delivered sequence numbers are `0, 1, ..., m-1` taken modulo
`2^32`, in that order, and `recv_seq` ends as `m mod 2^32`. -/
theorem in_order_delivery (ins : List RecvInput) :
    delivered_seqs initState ins =
        (List.range (delivered_seqs initState ins).length).map (fun i => i % UINT32_MOD) ∧
      (recv_run initState ins).recv_seq = (delivered_seqs initState ins).length % UINT32_MOD ∧
      ∀ (s : State) (inp : RecvInput),
        (delivered_seq s inp = none ∧ (recv_step s inp).state = s ∧
            (recv_step s inp).buf = inp.buf) ∨
          (delivered_seq s inp = some s.recv_seq ∧
            (recv_step s inp).state = { s with recv_seq := (s.recv_seq + 1) % UINT32_MOD } ∧
            (recv_step s inp).buf =
              memcpy (memset inp.buf 0 inp.len)
                ((recvfrom inp.pkt sizeof_packet inp.outcome).2.drop hdr_size)
                (min ((recvfrom inp.pkt sizeof_packet inp.outcome).1.toNat - hdr_size)
                  inp.len)) := by
  obtain ⟨h1, h2⟩ := delivered_seqs_eq ins initState (by decide)
  have h0 : initState.recv_seq = 0 := rfl
  rw [h0] at h1 h2
  refine ⟨by simpa using h1, by simpa using h2, delivered_step⟩

/-- C7 fails as stated: when `2^32 + 1` datagrams arrive in order (numbered
`0, 1, ..., 2^32 - 1, 0`), the packet delivered at position `2^32` carries
sequence number 0, which the packet at position 0 carried already. -/
theorem in_order_delivery_wraps :
    (delivered_seqs initState (inOrderInputs 0 4294967297))[4294967296]? = some 0 ∧
      (delivered_seqs initState (inOrderInputs 0 4294967297))[0]? = some 0 := by
  constructor
  · rw [inOrder_trace 4294967297 4294967296 (by decide)]
    rfl
  · rw [inOrder_trace 4294967297 0 (by decide)]
    rfl

/-! ## `sans_send_pkt` -/

theorem size_t_of_nat (len : Nat) (h : len < 2147483648) : size_t_of_int (len : Int) = len := by
  unfold size_t_of_int
  omega

theorem send_spec (s : State) (socket : Int) (buf : List Nat) (len : Nat)
    (hint : len < 2147483648) (hlen : s.send_window.length = swnd_size)
    (hhead : s.swnd_head < swnd_size) (hc : s.swnd_count < swnd_size)
    (hbuf : min len PKT_LEN ≤ buf.length) :
    ∃ s1 p, sans_send_pkt s socket buf (len : Int) true = some (s1, (len : Int)) ∧
      slot s1.send_window s.swnd_head =
        { socket := socket, packet := some p, packetlen := min len PKT_LEN,
          last_sent_ms := 0, sent_once := 0 } ∧
      p.payload.take (min len PKT_LEN) = buf.take (min len PKT_LEN) ∧
      s1.swnd_count = s.swnd_count + 1 := by
  obtain ⟨s1, p, h1, h2, _, _, h5, _, _, _, _, h10, _⟩ :=
    enqueue_ok_spec s socket buf len hlen hhead hc hbuf
  refine ⟨s1, p, ?_, h2, h5, h10⟩
  unfold sans_send_pkt
  rw [size_t_of_nat len hint, h1]
  rfl

/-- C8, as amended: for every handle, buffer and `len ≥ 0`, when the window
has room and the allocation succeeds, `sans_send_pkt(handle, buf, len)`
enqueues one slot holding the first `min(len, PKT_LEN)` bytes of `buf` with
`packetlen = min(len, PKT_LEN)` and returns `len`; the return value equals the
slot's `packetlen` whenever `len ≤ PKT_LEN`. -/
theorem send_return_value (s : State) (socket : Int) (buf : List Nat) (len : Nat)
    (hint : len < 2147483648) (hlen : s.send_window.length = swnd_size)
    (hhead : s.swnd_head < swnd_size) (hc : s.swnd_count < swnd_size)
    (hbuf : min len PKT_LEN ≤ buf.length) :
    ∃ s1 p, sans_send_pkt s socket buf (len : Int) true = some (s1, (len : Int)) ∧
      slot s1.send_window s.swnd_head =
        { socket := socket, packet := some p, packetlen := min len PKT_LEN,
          last_sent_ms := 0, sent_once := 0 } ∧
      p.payload.take (min len PKT_LEN) = buf.take (min len PKT_LEN) ∧
      (len ≤ PKT_LEN → (slot s1.send_window s.swnd_head).packetlen = len) := by
  obtain ⟨s1, p, h1, h2, h3, _⟩ := send_spec s socket buf len hint hlen hhead hc hbuf
  refine ⟨s1, p, h1, h2, h3, ?_⟩
  intro hle
  rw [h2]
  exact Nat.min_eq_left hle

/-- Witness for C8: sending the two bytes `"BB"` from the initial state. -/
theorem send_return_value_witness :
    ((2 : Nat) < 2147483648 ∧ initState.send_window.length = swnd_size ∧
        initState.swnd_head < swnd_size ∧ initState.swnd_count < swnd_size ∧
        min 2 PKT_LEN ≤ [66, 66].length) ∧
      ∃ s1 p, sans_send_pkt initState 3 [66, 66] ((2 : Nat) : Int) true
          = some (s1, ((2 : Nat) : Int)) ∧
        slot s1.send_window initState.swnd_head =
          { socket := 3, packet := some p, packetlen := min 2 PKT_LEN,
            last_sent_ms := 0, sent_once := 0 } ∧
        p.payload.take (min 2 PKT_LEN) = [66, 66].take (min 2 PKT_LEN) ∧
        (2 ≤ PKT_LEN → (slot s1.send_window initState.swnd_head).packetlen = 2) :=
  ⟨⟨by decide, by decide, by decide, by decide, by decide⟩,
    send_return_value initState 3 [66, 66] 2 (by decide) (by decide) (by decide) (by decide)
      (by decide)⟩

/-- C8 fails as stated: a send of 1401 bytes returns 1401 while the enqueued
slot has `packetlen = 1400`. -/
theorem send_return_value_truncates :
    (sans_send_pkt initState 3 (List.replicate 1401 65) 1401 true).map
        (fun r => (r.2, (slot r.1.send_window 0).packetlen)) = some (1401, 1400) := by
  decide

/-- C9, as amended: after `sans_disconnect(h)`, a `sans_send_pkt(h, buf, len)`
with `len ≥ 0` on a window with room, when the packet allocation succeeds,
still returns `len` (no error) and adds one slot for `h` to the send window. -/
theorem send_after_disconnect (s : State) (h closeRet : Int) (buf : List Nat) (len : Nat)
    (hint : len < 2147483648) (hlen : s.send_window.length = swnd_size)
    (hhead : s.swnd_head < swnd_size) (hc : s.swnd_count < swnd_size)
    (hbuf : min len PKT_LEN ≤ buf.length) :
    ∃ s1, sans_send_pkt (sans_disconnect s h closeRet).1 h buf (len : Int) true
          = some (s1, (len : Int)) ∧
      (0 : Int) ≤ (len : Int) ∧
      s1.swnd_count = s.swnd_count + 1 ∧
      (slot s1.send_window s.swnd_head).socket = h ∧
      (slot s1.send_window s.swnd_head).packet ≠ none := by
  obtain ⟨s1, p, h1, h2, _, h4⟩ :=
    send_spec (sans_disconnect s h closeRet).1 h buf len hint hlen hhead hc hbuf
  refine ⟨s1, h1, Int.ofNat_nonneg len, h4, ?_, ?_⟩
  · show (slot s1.send_window (sans_disconnect s h closeRet).1.swnd_head).socket = h
    rw [h2]
  · show (slot s1.send_window (sans_disconnect s h closeRet).1.swnd_head).packet ≠ none
    rw [h2]
    simp

/-- Witness for C9: socket 3 is recorded, disconnected, and then used to send `"A"`. -/
theorem send_after_disconnect_witness :
    ((1 : Nat) < 2147483648 ∧
        connState.send_window.length = swnd_size ∧
        connState.swnd_head < swnd_size ∧
        connState.swnd_count < swnd_size ∧
        min 1 PKT_LEN ≤ [65].length) ∧
      ∃ s1, sans_send_pkt (sans_disconnect connState 3 0).1 3
            [65] ((1 : Nat) : Int) true = some (s1, ((1 : Nat) : Int)) ∧
        (0 : Int) ≤ ((1 : Nat) : Int) ∧
        s1.swnd_count = connState.swnd_count + 1 ∧
        (slot s1.send_window
          connState.swnd_head).socket = 3 ∧
        (slot s1.send_window
          connState.swnd_head).packet ≠ none :=
  ⟨⟨by decide, by decide, by decide, by decide, by decide⟩,
    send_after_disconnect connState 3 0 [65] 1 (by decide)
      (by decide) (by decide) (by decide) (by decide)⟩

/-- C9 fails as stated: with socket 3 recorded in the table, `sans_disconnect(3)`
followed by `sans_send_pkt(3, "A", 1)` returns 1, not a negative value, and the
window then holds one slot. -/
theorem send_after_disconnect_succeeds :
    find_conn connState.rudp_conns 3 ≠ none ∧
      (sans_send_pkt (sans_disconnect connState 3 0).1 3
          [65] 1 true).map (fun r => (r.2, r.1.swnd_count)) = some (1, 1) := by
  constructor
  · decide
  · decide

/-! ## The initiator handshake -/

theorem byteAt_recv_zero (buf data peer : List Nat) (peerlen : Nat) (h : 0 < data.length) :
    byteAt (recvfrom buf sizeof_packet (.dgram data peer peerlen)).2 0 = byteAt data 0 := by
  rw [recvfrom_buf]
  cases data with
  | nil => simp at h
  | cons x xs =>
    have hm : min (x :: xs).length sizeof_packet = (min xs.length (sizeof_packet - 1)) + 1 := by
      simp only [List.length_cons, sizeof_packet, hdr_size, PKT_LEN]
      omega
    rw [hm, List.take_succ_cons]
    rfl

theorem synack_test (buf : List Nat) (o : RecvOutcome) :
    ((recvfrom buf sizeof_packet o).1 > 0 ∧
        byteAt (recvfrom buf sizeof_packet o).2 type_off % 256 = SYN ||| ACK) ↔
      synack_outcome o = true := by
  cases o with
  | timeout =>
    constructor
    · rintro ⟨h, _⟩
      exact absurd h (show ¬ ((-1 : Int) > 0) by decide)
    · intro h
      exact absurd h (show ¬ (false = true) by decide)
  | dgram data peer peerlen =>
    have hn : (recvfrom buf sizeof_packet (.dgram data peer peerlen)).1
        = ((min data.length sizeof_packet : Nat) : Int) := rfl
    have h3 : SYN ||| ACK = 3 := by decide
    unfold synack_outcome
    rw [hn, h3, Bool.and_eq_true, decide_eq_true_eq, decide_eq_true_eq]
    constructor
    · rintro ⟨h1, h2⟩
      have hpos : 0 < data.length := by
        have : 0 < sizeof_packet := by decide
        omega
      have hb := byteAt_recv_zero buf data peer peerlen hpos
      have ht : type_off = 0 := rfl
      rw [ht, hb] at h2
      exact ⟨hpos, h2⟩
    · rintro ⟨h1, h2⟩
      have hb := byteAt_recv_zero buf data peer peerlen h1
      have ht : type_off = 0 := rfl
      rw [ht, hb]
      refine ⟨?_, h2⟩
      have : 0 < sizeof_packet := by decide
      omega

theorem connect_step_good (sockfd : Int) (srv : List Nat) (srvlen fuel i : Nat) (s : State)
    (synack : List Nat) (peer : List Nat × Nat) (outcomes : List RecvOutcome) (sent : List Sent)
    (hi : i < 3) (hg : synack_outcome (outcomes.headD RecvOutcome.timeout) = true) :
    connect_loop 3 sockfd srv srvlen (fuel + 1) i s synack peer outcomes sent =
      { ret := sockfd
        state := (save_rudp_conn s sockfd
          (recv_peer peer (outcomes.headD RecvOutcome.timeout)).1
          (recv_peer peer (outcomes.headD RecvOutcome.timeout)).2).1
        sent := sent ++ [{ sock := sockfd, data := ack_packet
                           addr := (recv_peer peer (outcomes.headD RecvOutcome.timeout)).1
                           addrlen := (recv_peer peer (outcomes.headD RecvOutcome.timeout)).2 }]
        closed := [] } := by
  rw [connect_loop, if_pos hi]
  dsimp only
  rw [if_pos ((synack_test synack _).2 hg)]

theorem connect_step_bad (sockfd : Int) (srv : List Nat) (srvlen fuel i : Nat) (s : State)
    (synack : List Nat) (peer : List Nat × Nat) (outcomes : List RecvOutcome) (sent : List Sent)
    (hi : i < 3) (hb : synack_outcome (outcomes.headD RecvOutcome.timeout) = false) :
    connect_loop 3 sockfd srv srvlen (fuel + 1) i s synack peer outcomes sent =
      connect_loop 3 sockfd srv srvlen fuel (i + 1) s
        (recvfrom synack sizeof_packet (outcomes.headD RecvOutcome.timeout)).2
        (recv_peer peer (outcomes.headD RecvOutcome.timeout)) outcomes.tail
        (if i < 3 - 1 then
          sent ++ [{ sock := sockfd, data := syn_packet, addr := srv, addrlen := srvlen }]
        else sent) := by
  rw [connect_loop, if_pos hi]
  dsimp only
  rw [if_neg (fun h => by rw [(synack_test synack _).1 h] at hb; exact absurd hb (by decide))]

/-- The handshake of `sans_connect` on a created socket, for every sequence of
receive outcomes: `SYN` is sent at most three times; the call returns the
handle, closing nothing, exactly when one of the first three outcomes is a
`SYN|ACK`, and then its last datagram is the `ACK` and the state is what
`save_rudp_conn` leaves; otherwise it returns -1, has closed the socket and
leaves the globals unchanged. -/
theorem connect_rudp_spec (s : State) (srv : List Nat) (srvlen : Nat) (sockfd : Int)
    (synack peer : List Nat) (outcomes : List RecvOutcome) (hfd : 0 ≤ sockfd) :
    ((sans_connect_rudp s (some (srv, srvlen)) sockfd synack peer outcomes).sent.filter
        (fun d => decide (d.data = syn_packet))).length ≤ 3 ∧
      (((sans_connect_rudp s (some (srv, srvlen)) sockfd synack peer outcomes).ret = sockfd ∧
          (sans_connect_rudp s (some (srv, srvlen)) sockfd synack peer outcomes).closed = [] ∧
          ∃ a l,
            (sans_connect_rudp s (some (srv, srvlen)) sockfd synack peer outcomes).sent.getLast?
              = some { sock := sockfd, data := ack_packet, addr := a, addrlen := l } ∧
            (sans_connect_rudp s (some (srv, srvlen)) sockfd synack peer outcomes).state
              = (save_rudp_conn s sockfd a l).1) ↔
        (synack_outcome (outcomes.headD RecvOutcome.timeout) = true ∨
          synack_outcome (outcomes.tail.headD RecvOutcome.timeout) = true ∨
          synack_outcome (outcomes.tail.tail.headD RecvOutcome.timeout) = true)) ∧
      (¬ (synack_outcome (outcomes.headD RecvOutcome.timeout) = true ∨
          synack_outcome (outcomes.tail.headD RecvOutcome.timeout) = true ∨
          synack_outcome (outcomes.tail.tail.headD RecvOutcome.timeout) = true) →
        (sans_connect_rudp s (some (srv, srvlen)) sockfd synack peer outcomes).ret = -1 ∧
          (sans_connect_rudp s (some (srv, srvlen)) sockfd synack peer outcomes).closed
            = [sockfd] ∧
          (sans_connect_rudp s (some (srv, srvlen)) sockfd synack peer outcomes).state = s) := by
  have hne : ack_packet ≠ syn_packet := by
    intro h
    have : byteAt ack_packet 0 = byteAt syn_packet 0 := by rw [h]
    exact absurd this (by decide)
  have hfd2 : ¬ sockfd < 0 := by omega
  have hfd3 : (-1 : Int) ≠ sockfd := by omega
  unfold sans_connect_rudp
  dsimp only
  rw [if_neg hfd2]
  cases h0 : synack_outcome (outcomes.headD RecvOutcome.timeout) with
  | true =>
    rw [connect_step_good sockfd srv srvlen 2 0 s synack _ outcomes _ (by decide) h0]
    refine ⟨?_, ?_, ?_⟩
    · simp [hne]
    · simp
      exact ⟨_, _, ⟨rfl, rfl⟩, rfl⟩
    · simp
  | false =>
    rw [connect_step_bad sockfd srv srvlen 2 0 s synack _ outcomes _ (by decide) h0]
    cases h1 : synack_outcome (outcomes.tail.headD RecvOutcome.timeout) with
    | true =>
      rw [connect_step_good sockfd srv srvlen 1 1 s _ _ outcomes.tail _ (by decide) h1]
      refine ⟨?_, ?_, ?_⟩
      · simp [hne]
      · simp
        exact ⟨_, _, ⟨rfl, rfl⟩, rfl⟩
      · simp
    | false =>
      rw [connect_step_bad sockfd srv srvlen 1 1 s _ _ outcomes.tail _ (by decide) h1]
      cases h2 : synack_outcome (outcomes.tail.tail.headD RecvOutcome.timeout) with
      | true =>
        rw [connect_step_good sockfd srv srvlen 0 2 s _ _ outcomes.tail.tail _ (by decide) h2]
        refine ⟨?_, ?_, ?_⟩
        · simp [hne]
        · simp
          exact ⟨_, _, ⟨rfl, rfl⟩, rfl⟩
        · simp
      | false =>
        rw [connect_step_bad sockfd srv srvlen 0 2 s _ _ outcomes.tail.tail _ (by decide) h2]
        rw [connect_loop]
        refine ⟨?_, ?_, ?_⟩
        · simp
        · simp [hfd3]
        · simp

/-- C10, at the failing input: with all ten table slots taken, a handshake on
the fresh socket 20 whose first receive yields `SYN|ACK` sends one `SYN` and
one `ACK`, returns the handle 20 and closes nothing, yet the connection table
has no record for socket 20 and is unchanged: the result of `save_rudp_conn`
is dropped. -/
theorem connect_full_table_unrecorded :
    fullState.rudp_conns.all (fun c => decide (c.sockfd ≠ -1)) = true ∧
      (sans_connect_rudp fullState (some (peerAddr, 16)) 20 zeroPkt []
        [.dgram synackDgram peerAddr 16]).ret = 20 ∧
      (sans_connect_rudp fullState (some (peerAddr, 16)) 20 zeroPkt []
        [.dgram synackDgram peerAddr 16]).sent.map (fun d => byteAt d.data type_off)
          = [SYN, ACK] ∧
      (sans_connect_rudp fullState (some (peerAddr, 16)) 20 zeroPkt []
        [.dgram synackDgram peerAddr 16]).closed = [] ∧
      find_conn (sans_connect_rudp fullState (some (peerAddr, 16)) 20 zeroPkt []
        [.dgram synackDgram peerAddr 16]).state.rudp_conns 20 = none ∧
      (save_rudp_conn fullState 20 peerAddr 16).2 = -1 := by
  refine ⟨by decide, by decide, by decide, by decide, by decide, by decide⟩

/-! ## The connection table -/

theorem disconnect_conns (s : State) (h closeRet : Int) :
    (sans_disconnect s h closeRet).1.rudp_conns =
      s.rudp_conns.map (fun c =>
        if c.sockfd = h then
          { sockfd := -1, addr := memset c.addr 0 sizeof_sockaddr_storage, addrlen := 0 }
        else c) := rfl

theorem disconnect_mem (s : State) (h closeRet : Int) (c : rudp_conn)
    (hc : c ∈ (sans_disconnect s h closeRet).1.rudp_conns) (hs : c.sockfd = h) :
    c.addrlen = 0 ∧ h = -1 := by
  rw [disconnect_conns, List.mem_map] at hc
  obtain ⟨d, _, hd⟩ := hc
  by_cases hdh : d.sockfd = h
  · rw [if_pos hdh] at hd
    rw [← hd] at hs ⊢
    exact ⟨rfl, hs.symm⟩
  · rw [if_neg hdh] at hd
    rw [hd] at hdh
    exact absurd hs hdh

/-- C12: after `sans_disconnect(h)` every table slot whose `sockfd` is `h` has
an empty address (`addrlen = 0`), so a lookup of `h` finds no peer, and for
`h ≠ -1` finds no slot at all; every slot that held a different handle is
unchanged; the send window, its indices and both sequence counters are
unchanged; the return value is that of `close`. -/
theorem disconnect_clears (s : State) (h closeRet : Int) :
    (∀ c ∈ (sans_disconnect s h closeRet).1.rudp_conns, c.sockfd = h → c.addrlen = 0) ∧
      (∀ c, find_conn (sans_disconnect s h closeRet).1.rudp_conns h = some c → c.addrlen = 0) ∧
      (h ≠ -1 → find_conn (sans_disconnect s h closeRet).1.rudp_conns h = none) ∧
      (∀ (i : Nat) (c : rudp_conn), s.rudp_conns[i]? = some c → c.sockfd ≠ h →
        (sans_disconnect s h closeRet).1.rudp_conns[i]? = some c) ∧
      (sans_disconnect s h closeRet).1.send_window = s.send_window ∧
      (sans_disconnect s h closeRet).1.swnd_head = s.swnd_head ∧
      (sans_disconnect s h closeRet).1.swnd_tail = s.swnd_tail ∧
      (sans_disconnect s h closeRet).1.swnd_count = s.swnd_count ∧
      (sans_disconnect s h closeRet).1.send_seq = s.send_seq ∧
      (sans_disconnect s h closeRet).1.recv_seq = s.recv_seq ∧
      (sans_disconnect s h closeRet).2 = closeRet := by
  refine ⟨?_, ?_, ?_, ?_, rfl, rfl, rfl, rfl, rfl, rfl, rfl⟩
  · intro c hc hs
    exact (disconnect_mem s h closeRet c hc hs).1
  · intro c hf
    unfold find_conn at hf
    have hmem := List.mem_of_find?_eq_some hf
    have hp := List.find?_some hf
    exact (disconnect_mem s h closeRet c hmem (by simpa using hp)).1
  · intro hne
    unfold find_conn
    rw [List.find?_eq_none]
    intro c hc hp
    exact hne (disconnect_mem s h closeRet c hc (by simpa using hp)).2
  · intro i c hi hne
    rw [disconnect_conns, List.getElem?_map, hi]
    show some (if c.sockfd = h then _ else c) = some c
    rw [if_neg hne]

/-- Witness for C12: disconnecting the recorded socket 3 in `connState`. -/
theorem disconnect_clears_witness :
    find_conn connState.rudp_conns 3 = some connRecord ∧ (3 : Int) ≠ -1 ∧
      find_conn (sans_disconnect connState 3 0).1.rudp_conns 3 = none ∧
      (sans_disconnect connState 3 0).1.send_window = connState.send_window :=
  ⟨by decide, by decide, (disconnect_clears connState 3 0).2.2.1 (by decide),
    (disconnect_clears connState 3 0).2.2.2.2.1⟩

/-! ## Short datagrams -/

/-- C13, at the failing input: a 1-byte datagram `[0]` (shorter than the
8-byte header) arrives on the recorded socket 3 while `recv_seq = 0`.  With
the local packet buffer holding zero bytes the code reads type `DAT` and
sequence number 0 from it, sends an ACK for 0, zero-fills the caller's buffer
and advances `recv_seq` to 1; with the buffer holding bytes 7 it sends an ACK
carrying the stale number `0x07070707`.  In both cases it returns 0. -/
theorem short_datagram_accepted :
    ((1 : Nat) < hdr_size) ∧
      (sans_recv_pkt connState 3 [9, 9, 9, 9] 4 zeroPkt (.dgram [0] peerAddr 16)).ret = 0 ∧
      (sans_recv_pkt connState 3 [9, 9, 9, 9] 4 zeroPkt
        (.dgram [0] peerAddr 16)).state.recv_seq = 1 ∧
      (sans_recv_pkt connState 3 [9, 9, 9, 9] 4 zeroPkt (.dgram [0] peerAddr 16)).buf
        = [0, 0, 0, 0] ∧
      (sans_recv_pkt connState 3 [9, 9, 9, 9] 4 zeroPkt
        (.dgram [0] peerAddr 16)).sent.map (fun d => d.data) = [[2, 0, 0, 0, 0, 0, 0, 0]] ∧
      (sans_recv_pkt connState 3 [9, 9, 9, 9] 4 (List.replicate sizeof_packet 7)
        (.dgram [0] peerAddr 16)).sent.map (fun d => d.data) = [[2, 0, 0, 0, 7, 7, 7, 7]] ∧
      (sans_recv_pkt connState 3 [9, 9, 9, 9] 4 (List.replicate sizeof_packet 7)
        (.dgram [0] peerAddr 16)).ret = 0 := by
  refine ⟨by decide, by decide, by decide, by decide, by decide, by decide, by decide⟩

/-! ## The ring structure -/

theorem ring_structure_of_inv {s : State} (h : WindowInv s) :
    s.swnd_count ≤ swnd_size ∧ s.swnd_head = (s.swnd_tail + s.swnd_count) % swnd_size ∧
      s.swnd_tail < swnd_size ∧ s.send_window.length = swnd_size ∧
      (∀ i, i < swnd_size →
        ((∃ j, j < s.swnd_count ∧ i = (s.swnd_tail + j) % swnd_size) ↔
          (slot s.send_window i).packet ≠ none)) ∧
      (∀ i, i < swnd_size → (∀ j, j < s.swnd_count → i ≠ (s.swnd_tail + j) % swnd_size) →
        slot s.send_window i = emptyEntry) := by
  have key : ∀ i, i < swnd_size → (¬ ∃ j, j < s.swnd_count ∧ i = (s.swnd_tail + j) % swnd_size) →
      slot s.send_window i = emptyEntry := by
    intro i hi hno
    obtain ⟨hidx, hjlt⟩ := ring_offset s.swnd_tail i h.tail_lt hi
    have hge : s.swnd_count ≤ (i + 20 - s.swnd_tail) % 20 := by
      by_contra hlt
      exact hno ⟨_, Nat.lt_of_not_le hlt, hidx.symm⟩
    have he := h.empty _ hge hjlt
    have hidx2 : (s.swnd_tail + (i + 20 - s.swnd_tail) % 20) % swnd_size = i := hidx
    rw [hidx2] at he
    exact he
  refine ⟨h.count_le, h.head_eq, h.tail_lt, h.len, ?_, ?_⟩
  · intro i hi
    constructor
    · rintro ⟨j, hj, rfl⟩
      obtain ⟨p, hp, _⟩ := h.occupied j hj
      rw [hp]
      simp
    · intro hne
      by_contra hno
      rw [key i hi hno] at hne
      exact hne rfl
  · intro i hi hall
    exact key i hi (fun ⟨j, hj, he⟩ => hall j hj he)

/-- C15: in every reachable state `0 ≤ count ≤ 20`, `head = (tail + count) mod 20`,
the window array has 20 slots, a slot is occupied (non-null packet) exactly
when its index is one of `tail, tail+1, ..., tail+count-1 (mod 20)`, and every
other slot is the empty slot: null packet, `socket = -1`, zero length and
stamps. -/
theorem ring_structure (s : State) (h : Reachable s) :
    s.swnd_count ≤ swnd_size ∧ s.swnd_head = (s.swnd_tail + s.swnd_count) % swnd_size ∧
      s.swnd_tail < swnd_size ∧ s.send_window.length = swnd_size ∧
      (∀ i, i < swnd_size →
        ((∃ j, j < s.swnd_count ∧ i = (s.swnd_tail + j) % swnd_size) ↔
          (slot s.send_window i).packet ≠ none)) ∧
      (∀ i, i < swnd_size → (∀ j, j < s.swnd_count → i ≠ (s.swnd_tail + j) % swnd_size) →
        slot s.send_window i = emptyEntry) ∧
      emptyEntry.packet = none ∧ emptyEntry.socket = -1 := by
  obtain ⟨h1, h2, h3, h4, h5, h6⟩ := ring_structure_of_inv (windowInv_of_reachable h)
  exact ⟨h1, h2, h3, h4, h5, h6, rfl, rfl⟩

/-- Witness for C15: the state after three sends. -/
theorem ring_structure_witness :
    Reachable threeState ∧ threeState.swnd_count = 3 ∧ threeState.swnd_head = 3 ∧
      threeState.swnd_head = (threeState.swnd_tail + threeState.swnd_count) % swnd_size ∧
      threeState.swnd_count ≤ swnd_size :=
  ⟨reachable_run _ _ Reachable.init, by decide, by decide,
    (ring_structure threeState (reachable_run _ _ Reachable.init)).2.1,
    (ring_structure threeState (reachable_run _ _ Reachable.init)).1⟩

/-! ## Sender and receiver composed -/

/-- C16, at the failing input: with sequence numbers 0 and 1 outstanding and
both transmitted, the receiver (`recv_seq = 0`) sees number 1 first: its
`sans_recv_pkt` returns 0, delivers nothing, keeps `recv_seq = 0` and emits an
ACK for 1.  The engine processes that ACK cumulatively and removes both slots:
the window is empty although the receiver has delivered neither packet. -/
theorem out_of_order_ack_empties_window :
    window_seqs oooSender = [0, 1] ∧
      oooPass.2.map (fun d => read_u32 d.data seqnum_off) = [0, 1] ∧
      oooRecv.ret = 0 ∧ oooRecv.buf = [9, 9, 9, 9] ∧ oooRecv.state.recv_seq = 0 ∧
      oooRecv.sent.map (fun d => d.data) = [[2, 0, 0, 0, 1, 0, 0, 0]] ∧
      oooAfterAck.swnd_count = 0 ∧ window_seqs oooAfterAck = [] := by
  refine ⟨by decide, by decide, by decide, by decide, by decide, by decide, by decide,
    by decide⟩

/-! ## The served path -/

theorem path_scan_backslash (p : List Nat) (h : 92 ∈ p) :
    ∀ b : Bool, path_scan b p = 1 := by
  induction p with
  | nil => simp at h
  | cons c rest ih =>
    intro b
    unfold path_scan
    by_cases hc : c = 92
    · rw [if_pos hc]
    · rw [if_neg hc]
      split
      · rfl
      · have hr : 92 ∈ rest := by
          rcases List.mem_cons.1 h with h1 | h1
          · exact absurd h1.symm hc
          · exact h1
        exact ih hr _

theorem sanitize_subset (p : List Nat) (n : Nat) (hne : p ≠ [47]) (hne2 : p ≠ []) :
    ∀ c ∈ sanitize_path p n, c ∈ p := by
  intro c hc
  unfold sanitize_path at hc
  have hsub : ∀ q : List Nat, (∀ x ∈ q, x ∈ p) → q ≠ [] →
      c ∈ (if q = [] then (cstr "index.html").take (n - 1)
        else (q.takeWhile (fun c => decide (c ≠ 63))).take (n - 1)) → c ∈ p := by
    intro q hq hqne hmem
    rw [if_neg hqne] at hmem
    exact hq c (List.takeWhile_subset _ (List.mem_of_mem_take hmem))
  cases p with
  | nil => exact absurd rfl hne2
  | cons x xs =>
    by_cases hx : x = 47
    · subst hx
      have hxs : xs ≠ [] := by
        intro h0
        exact hne (by rw [h0])
      exact hsub xs (fun y hy => List.mem_cons_of_mem _ hy) hxs hc
    · have hmatch : (match x :: xs with
          | 47 :: rest => rest
          | _ => x :: xs) = x :: xs := by
        split
        · next h47 =>
          exact absurd (List.cons.inj h47).1 hx
        · rfl
      rw [hmatch] at hc
      exact hsub (x :: xs) (fun y hy => hy) (by simp) hc

theorem backslash_flagged (p : List Nat) (hp : 92 ∈ p) : path_has_traversal p = 1 :=
  path_scan_backslash p hp true

theorem sanitize_no_backslash (p : List Nat) (h0 : path_has_traversal p = 0) :
    92 ∉ sanitize_path p 512 := by
  intro hmem
  by_cases h1 : p = [47]
  · rw [h1] at hmem
    revert hmem
    decide
  · by_cases h2 : p = []
    · rw [h2] at hmem
      revert hmem
      decide
    · have hp := sanitize_subset p 512 h1 h2 92 hmem
      have := path_scan_backslash p hp true
      unfold path_has_traversal at h0
      rw [h0] at this
      exact absurd this (by decide)

/-- C17, at the failing input: the request path `//etc/passwd` contains no
backslash and no `..` segment, passes `path_has_traversal` (result 0), and
`sanitize_path` turns it into `/etc/passwd`, an absolute path that begins
with `/`. -/
theorem served_path_absolute :
    path_has_traversal (cstr "//etc/passwd") = 0 ∧
      sanitize_path (cstr "//etc/passwd") 512 = cstr "/etc/passwd" ∧
      (sanitize_path (cstr "//etc/passwd") 512).head? = some 47 := by
  refine ⟨by decide, by decide, by decide⟩

/-! ## The retransmission gate -/

theorem stamp_stamp (now_ms : Nat) (e : swnd_entry_t) :
    stamp now_ms (stamp now_ms e) = stamp now_ms e := rfl

theorem gate_open (e : swnd_entry_t) (now_ms : Nat) (h1 : e.sent_once ≠ 0)
    (h2 : e.last_sent_ms ≠ 0) (h : rate_limited e now_ms = false) :
    100 ≤ (now_ms + 18446744073709551616 - e.last_sent_ms) % 18446744073709551616 := by
  unfold rate_limited at h
  simp only [h1, h2, ne_eq, not_false_eq_true, decide_True, Bool.true_and,
    decide_eq_false_iff_not, Nat.not_lt] at h
  exact h

theorem gate_open_monotone (e : swnd_entry_t) (now_ms : Nat) (h1 : e.sent_once ≠ 0)
    (h2 : e.last_sent_ms ≠ 0) (hle : e.last_sent_ms ≤ now_ms)
    (h : rate_limited e now_ms = false) :
    100 ≤ now_ms - e.last_sent_ms := by
  have := gate_open e now_ms h1 h2 h
  omega

/-- What a pass has done so far, relative to the state `s0` it started from:
every slot is as in `s0` or is the stamped `s0` slot with the gate open, and
every datagram sent belongs to an occupied `s0` slot whose gate was open. -/
theorem transmit_slot_inv (s0 : State) (now_ms : Nat) (acc : State × List Sent) (i : Nat)
    (h1 : ∀ idx, slot acc.1.send_window idx = slot s0.send_window idx ∨
      (slot acc.1.send_window idx = stamp now_ms (slot s0.send_window idx) ∧
        rate_limited (slot s0.send_window idx) now_ms = false))
    (h2 : ∀ d ∈ acc.2, ∃ idx p, (slot s0.send_window idx).packet = some p ∧
      rate_limited (slot s0.send_window idx) now_ms = false ∧
      d.sock = (slot s0.send_window idx).socket ∧
      d.data = (packet_bytes p).take (hdr_size + (slot s0.send_window idx).packetlen)) :
    (∀ idx, slot (transmit_slot now_ms acc i).1.send_window idx = slot s0.send_window idx ∨
      (slot (transmit_slot now_ms acc i).1.send_window idx
          = stamp now_ms (slot s0.send_window idx) ∧
        rate_limited (slot s0.send_window idx) now_ms = false)) ∧
    (∀ d ∈ (transmit_slot now_ms acc i).2, ∃ idx p, (slot s0.send_window idx).packet = some p ∧
      rate_limited (slot s0.send_window idx) now_ms = false ∧
      d.sock = (slot s0.send_window idx).socket ∧
      d.data = (packet_bytes p).take (hdr_size + (slot s0.send_window idx).packetlen)) := by
  unfold transmit_slot
  dsimp only
  split
  · exact ⟨h1, h2⟩
  · next p hp =>
    split
    · exact ⟨h1, h2⟩
    · split
      · exact ⟨h1, h2⟩
      · split
        · exact ⟨h1, h2⟩
        · next hgate =>
          have hg : rate_limited (slot acc.1.send_window
              ((acc.1.swnd_tail + i) % swnd_size)) now_ms = false := by
            simpa using hgate
          have hcur := h1 ((acc.1.swnd_tail + i) % swnd_size)
          have hg0 : rate_limited (slot s0.send_window
              ((acc.1.swnd_tail + i) % swnd_size)) now_ms = false := by
            rcases hcur with hc | ⟨_, hc⟩
            · rw [← hc]; exact hg
            · exact hc
          have hst : stamp now_ms (slot acc.1.send_window ((acc.1.swnd_tail + i) % swnd_size))
              = stamp now_ms (slot s0.send_window ((acc.1.swnd_tail + i) % swnd_size)) := by
            rcases hcur with hc | ⟨hc, _⟩
            · rw [hc]
            · rw [hc, stamp_stamp]
          constructor
          · intro idx
            dsimp only
            rw [slot_set]
            split
            · next hx =>
              rw [← hx.1]
              exact Or.inr ⟨hst, hg0⟩
            · exact h1 idx
          · intro d hd
            dsimp only at hd
            rcases List.mem_append.1 hd with hd1 | hd1
            · exact h2 d hd1
            · rw [List.mem_singleton] at hd1
              have hfields : (slot s0.send_window ((acc.1.swnd_tail + i) % swnd_size)).packet
                    = some p ∧
                  (slot s0.send_window ((acc.1.swnd_tail + i) % swnd_size)).socket
                    = (slot acc.1.send_window ((acc.1.swnd_tail + i) % swnd_size)).socket ∧
                  (slot s0.send_window ((acc.1.swnd_tail + i) % swnd_size)).packetlen
                    = (slot acc.1.send_window ((acc.1.swnd_tail + i) % swnd_size)).packetlen := by
                rcases hcur with hc | ⟨hc, _⟩
                · rw [← hc]; exact ⟨hp, rfl, rfl⟩
                · rw [hc] at hp ⊢
                  exact ⟨hp, rfl, rfl⟩
              refine ⟨_, p, hfields.1, hg0, ?_, ?_⟩
              · rw [hd1, hfields.2.1]
              · rw [hd1, hfields.2.2]

theorem transmit_fold_inv (s0 : State) (now_ms : Nat) (l : List Nat) :
    ∀ acc : State × List Sent,
      (∀ idx, slot acc.1.send_window idx = slot s0.send_window idx ∨
        (slot acc.1.send_window idx = stamp now_ms (slot s0.send_window idx) ∧
          rate_limited (slot s0.send_window idx) now_ms = false)) →
      (∀ d ∈ acc.2, ∃ idx p, (slot s0.send_window idx).packet = some p ∧
        rate_limited (slot s0.send_window idx) now_ms = false ∧
        d.sock = (slot s0.send_window idx).socket ∧
        d.data = (packet_bytes p).take (hdr_size + (slot s0.send_window idx).packetlen)) →
      (∀ idx, slot (l.foldl (transmit_slot now_ms) acc).1.send_window idx
            = slot s0.send_window idx ∨
        (slot (l.foldl (transmit_slot now_ms) acc).1.send_window idx
            = stamp now_ms (slot s0.send_window idx) ∧
          rate_limited (slot s0.send_window idx) now_ms = false)) ∧
      (∀ d ∈ (l.foldl (transmit_slot now_ms) acc).2, ∃ idx p,
        (slot s0.send_window idx).packet = some p ∧
        rate_limited (slot s0.send_window idx) now_ms = false ∧
        d.sock = (slot s0.send_window idx).socket ∧
        d.data = (packet_bytes p).take (hdr_size + (slot s0.send_window idx).packetlen)) := by
  induction l with
  | nil => intro acc h1 h2; exact ⟨h1, h2⟩
  | cons i l ih =>
    intro acc h1 h2
    rw [List.foldl_cons]
    obtain ⟨k1, k2⟩ := transmit_slot_inv s0 now_ms acc i h1 h2
    exact ih _ k1 k2

theorem removal_loop_slots (a : Nat) (fuel : Nat) :
    ∀ (s : State) (idx : Nat),
      slot (removal_loop fuel s a).send_window idx = slot s.send_window idx ∨
        slot (removal_loop fuel s a).send_window idx = emptyEntry := by
  induction fuel with
  | zero => intro s idx; exact Or.inl rfl
  | succ n ih =>
    intro s idx
    unfold removal_loop
    split
    · split
      · split
        · rcases ih (remove_tail s) idx with h | h
          · have hw : (remove_tail s).send_window = s.send_window.set s.swnd_tail emptyEntry :=
              rfl
            rw [h, hw, slot_set]
            split
            · exact Or.inr rfl
            · exact Or.inl rfl
          · exact Or.inr h
        · exact Or.inl rfl
      · exact Or.inl rfl
    · exact Or.inl rfl

theorem transmit_slot_cases (now_ms : Nat) (acc : State × List Sent) (i : Nat) :
    transmit_slot now_ms acc i = acc ∨
      ∃ (p : rudp_packet_t) (conn : rudp_conn),
        (slot acc.1.send_window ((acc.1.swnd_tail + i) % swnd_size)).packet = some p ∧
        rate_limited (slot acc.1.send_window ((acc.1.swnd_tail + i) % swnd_size)) now_ms
          = false ∧
        transmit_slot now_ms acc i =
          ({ acc.1 with
              send_window := acc.1.send_window.set ((acc.1.swnd_tail + i) % swnd_size)
                (stamp now_ms (slot acc.1.send_window ((acc.1.swnd_tail + i) % swnd_size))) },
            acc.2 ++
              [{ sock := (slot acc.1.send_window ((acc.1.swnd_tail + i) % swnd_size)).socket
                 data := (packet_bytes p).take (hdr_size +
                   (slot acc.1.send_window ((acc.1.swnd_tail + i) % swnd_size)).packetlen)
                 addr := conn.addr
                 addrlen := conn.addrlen }]) := by
  unfold transmit_slot
  dsimp only
  split
  · exact Or.inl rfl
  · next p hp =>
    split
    · exact Or.inl rfl
    · next conn _ =>
      split
      · exact Or.inl rfl
      · split
        · exact Or.inl rfl
        · next hgate =>
          exact Or.inr ⟨p, conn, hp, by simpa using hgate, rfl⟩

theorem pass_upto_succ (s : State) (now_ms k : Nat) :
    pass_upto s now_ms (k + 1) = transmit_slot now_ms (pass_upto s now_ms k) k := by
  unfold pass_upto
  rw [List.range_succ, List.foldl_append]
  rfl

theorem pass_upto_tail (s : State) (now_ms k : Nat) :
    (pass_upto s now_ms k).1.swnd_tail = s.swnd_tail :=
  (samePackets_transmit_fold now_ms (List.range k) (s, [])).2.2.1

theorem pass_upto_slots (s : State) (now_ms k idx : Nat) :
    slot (pass_upto s now_ms k).1.send_window idx = slot s.send_window idx ∨
      (slot (pass_upto s now_ms k).1.send_window idx = stamp now_ms (slot s.send_window idx) ∧
        rate_limited (slot s.send_window idx) now_ms = false) :=
  (transmit_fold_inv s now_ms (List.range k) (s, []) (fun _ => Or.inl rfl)
    (fun d hd => by simp at hd)).1 idx

theorem stamped_stays_step (now_ms : Nat) (acc : State × List Sent) (j idx : Nat)
    (e : swnd_entry_t) (h : slot acc.1.send_window idx = stamp now_ms e) :
    slot (transmit_slot now_ms acc j).1.send_window idx = stamp now_ms e := by
  rcases transmit_slot_cases now_ms acc j with h0 | ⟨p, conn, _, _, h1⟩
  · rw [h0]; exact h
  · rw [h1]
    dsimp only
    rw [slot_set]
    split
    · next hx =>
      rw [hx.1, h, stamp_stamp]
    · exact h

theorem stamped_stays (s : State) (now_ms idx : Nat) (e : swnd_entry_t) (k : Nat) :
    ∀ m, slot (pass_upto s now_ms k).1.send_window idx = stamp now_ms e →
      slot (pass_upto s now_ms (k + m)).1.send_window idx = stamp now_ms e := by
  intro m
  induction m with
  | zero => intro h; exact h
  | succ m ih =>
    intro h
    rw [← Nat.add_assoc, pass_upto_succ]
    exact stamped_stays_step now_ms _ _ idx e (ih h)

/-- An iteration that calls `sendto` does so for an occupied slot whose gate
was open when the pass began, sends that slot's packet, and stamps the slot. -/
theorem sends_at_spec (s : State) (now_ms i : Nat) (h : sends_at s now_ms i = true) :
    ∃ p, (slot s.send_window ((s.swnd_tail + i) % swnd_size)).packet = some p ∧
      rate_limited (slot s.send_window ((s.swnd_tail + i) % swnd_size)) now_ms = false ∧
      slot (pass_upto s now_ms (i + 1)).1.send_window ((s.swnd_tail + i) % swnd_size)
        = stamp now_ms (slot s.send_window ((s.swnd_tail + i) % swnd_size)) ∧
      ∃ d, (pass_upto s now_ms (i + 1)).2 = (pass_upto s now_ms i).2 ++ [d] ∧
        d.sock = (slot s.send_window ((s.swnd_tail + i) % swnd_size)).socket ∧
        d.data = (packet_bytes p).take
          (hdr_size + (slot s.send_window ((s.swnd_tail + i) % swnd_size)).packetlen) := by
  unfold sends_at at h
  rw [decide_eq_true_eq] at h
  have htail := pass_upto_tail s now_ms i
  rcases transmit_slot_cases now_ms (pass_upto s now_ms i) i with h0 | ⟨p, conn, hp, hg, h1⟩
  · rw [h0] at h
    omega
  · rw [htail] at hp hg h1
    have hcur := pass_upto_slots s now_ms i ((s.swnd_tail + i) % swnd_size)
    have hfacts : (slot s.send_window ((s.swnd_tail + i) % swnd_size)).packet = some p ∧
        rate_limited (slot s.send_window ((s.swnd_tail + i) % swnd_size)) now_ms = false ∧
        stamp now_ms (slot (pass_upto s now_ms i).1.send_window ((s.swnd_tail + i) % swnd_size))
          = stamp now_ms (slot s.send_window ((s.swnd_tail + i) % swnd_size)) ∧
        (slot (pass_upto s now_ms i).1.send_window ((s.swnd_tail + i) % swnd_size)).socket
          = (slot s.send_window ((s.swnd_tail + i) % swnd_size)).socket ∧
        (slot (pass_upto s now_ms i).1.send_window ((s.swnd_tail + i) % swnd_size)).packetlen
          = (slot s.send_window ((s.swnd_tail + i) % swnd_size)).packetlen := by
      rcases hcur with hc | ⟨hc, hgo⟩
      · rw [hc] at hp hg
        rw [hc]
        exact ⟨hp, hg, rfl, rfl, rfl⟩
      · rw [hc] at hp
        rw [hc]
        exact ⟨hp, hgo, stamp_stamp _ _, rfl, rfl⟩
    obtain ⟨f1, f2, f3, f4, f5⟩ := hfacts
    have hlen : (s.swnd_tail + i) % swnd_size < (pass_upto s now_ms i).1.send_window.length := by
      by_contra hge
      have := slot_out_of_range (pass_upto s now_ms i).1.send_window _ (Nat.le_of_not_lt hge)
      rw [this] at hp
      exact absurd hp (by simp [emptyEntry])
    refine ⟨p, f1, f2, ?_, ?_⟩
    · rw [pass_upto_succ, h1]
      dsimp only
      rw [slot_set, if_pos ⟨rfl, hlen⟩, f3]
    · refine ⟨_, by rw [pass_upto_succ, h1], f4, ?_⟩
      dsimp only
      rw [f5]

theorem sent_from_sends (s : State) (now_ms : Nat) (k : Nat) :
    ∀ d ∈ (pass_upto s now_ms k).2, ∃ i, i < k ∧ sends_at s now_ms i = true ∧
      d.sock = (slot s.send_window ((s.swnd_tail + i) % swnd_size)).socket ∧
      ∃ p, (slot s.send_window ((s.swnd_tail + i) % swnd_size)).packet = some p ∧
        d.data = (packet_bytes p).take
          (hdr_size + (slot s.send_window ((s.swnd_tail + i) % swnd_size)).packetlen) := by
  induction k with
  | zero =>
    intro d hd
    exact absurd hd (by simp [pass_upto])
  | succ k ih =>
    intro d hd
    by_cases hs : sends_at s now_ms k = true
    · obtain ⟨p, f1, _, _, d0, hd0, f4, f5⟩ := sends_at_spec s now_ms k hs
      rw [hd0] at hd
      rcases List.mem_append.1 hd with h1 | h1
      · obtain ⟨i, hi, rest⟩ := ih d h1
        exact ⟨i, Nat.lt_succ_of_lt hi, rest⟩
      · rw [List.mem_singleton] at h1
        rw [h1]
        exact ⟨k, Nat.lt_succ_self k, hs, f4, p, f1, f5⟩
    · have hsame : pass_upto s now_ms (k + 1) = pass_upto s now_ms k := by
        rw [pass_upto_succ]
        rcases transmit_slot_cases now_ms (pass_upto s now_ms k) k with h0 | ⟨p, conn, _, _, h1⟩
        · exact h0
        · exfalso
          apply hs
          unfold sends_at
          rw [decide_eq_true_eq, h1]
          simp
      rw [hsame] at hd
      obtain ⟨i, hi, rest⟩ := ih d hd
      exact ⟨i, Nat.lt_succ_of_lt hi, rest⟩

theorem stamped_after_pass (s : State) (now_ms i : Nat) (hi : i < s.swnd_count)
    (h : sends_at s now_ms i = true) :
    slot (transmit_loop s now_ms).1.send_window ((s.swnd_tail + i) % swnd_size)
      = stamp now_ms (slot s.send_window ((s.swnd_tail + i) % swnd_size)) := by
  obtain ⟨p, _, _, f3, _⟩ := sends_at_spec s now_ms i h
  have hk : s.swnd_count = (i + 1) + (s.swnd_count - (i + 1)) := by omega
  have := stamped_stays s now_ms ((s.swnd_tail + i) % swnd_size) _ (i + 1)
    (s.swnd_count - (i + 1)) f3
  rw [← hk] at this
  exact this

theorem slot_sent_iff (s : State) (now_ms idx : Nat) :
    slot_sent s now_ms idx = true ↔
      ∃ i, i < s.swnd_count ∧ (s.swnd_tail + i) % swnd_size = idx ∧
        sends_at s now_ms i = true := by
  unfold slot_sent
  rw [List.any_eq_true]
  constructor
  · rintro ⟨i, hi, h⟩
    rw [Bool.and_eq_true, decide_eq_true_eq] at h
    exact ⟨i, List.mem_range.1 hi, h.1, h.2⟩
  · rintro ⟨i, hi, h1, h2⟩
    refine ⟨i, List.mem_range.2 hi, ?_⟩
    rw [Bool.and_eq_true, decide_eq_true_eq]
    exact ⟨h1, h2⟩

/-- A pass leaves alone every ring position it does not transmit. -/
theorem pass_unsent (s : State) (now_ms idx : Nat) (k : Nat)
    (h : ∀ i, i < k → (s.swnd_tail + i) % swnd_size = idx → sends_at s now_ms i = false) :
    slot (pass_upto s now_ms k).1.send_window idx = slot s.send_window idx := by
  induction k with
  | zero => rfl
  | succ k ih =>
    have ih1 := ih (fun i hi => h i (Nat.lt_succ_of_lt hi))
    rw [pass_upto_succ]
    rcases transmit_slot_cases now_ms (pass_upto s now_ms k) k with h0 | ⟨p, conn, _, _, h1⟩
    · rw [h0]; exact ih1
    · have hs : sends_at s now_ms k = true := by
        unfold sends_at
        rw [decide_eq_true_eq, h1]
        simp
      have hne : (s.swnd_tail + k) % swnd_size ≠ idx := by
        intro he
        rw [h k (Nat.lt_succ_self k) he] at hs
        exact Bool.false_ne_true hs
      rw [h1]
      dsimp only
      rw [slot_set, pass_upto_tail, if_neg (fun hc => hne hc.1)]
      exact ih1

theorem slot_unsent_pass (s : State) (now_ms idx : Nat)
    (h : slot_sent s now_ms idx = false) :
    slot (transmit_loop s now_ms).1.send_window idx = slot s.send_window idx := by
  apply pass_unsent s now_ms idx s.swnd_count
  intro i hi he
  by_contra hc
  rw [Bool.not_eq_false] at hc
  have := (slot_sent_iff s now_ms idx).2 ⟨i, hi, he, hc⟩
  rw [h] at this
  exact Bool.false_ne_true this

/-- A receive that yields bytes leaves every slot unchanged or empties it. -/
theorem receive_slots (s : State) (ackbuf : List Nat) (o : RecvOutcome)
    (hr : 0 < (recvfrom ackbuf hdr_size o).1) (idx : Nat) :
    slot (backend_receive s ackbuf o).send_window idx = slot s.send_window idx ∨
      slot (backend_receive s ackbuf o).send_window idx = emptyEntry := by
  have hh : ∀ ty a, slot (backend_process_header s ty a).send_window idx
        = slot s.send_window idx ∨
      slot (backend_process_header s ty a).send_window idx = emptyEntry := by
    intro ty a
    unfold backend_process_header
    split
    · exact removal_loop_slots _ _ s idx
    · exact Or.inl rfl
  unfold backend_receive
  dsimp only
  rw [if_pos hr]
  split
  · split
    · exact Or.inl rfl
    · split
      · exact Or.inl rfl
      · split
        · exact hh _ _
        · exact Or.inl rfl
  · exact Or.inl rfl

/-- A slot that is stamped with `t1` or empty stays so through every iteration
that does not transmit it and whose receive yields bytes. -/
theorem stamp_kept (idx t1 : Nat) (e : swnd_entry_t) (mid : List BackendInput) :
    ∀ s : State,
      (slot s.send_window idx = stamp t1 e ∨ slot s.send_window idx = emptyEntry) →
      (∀ x ∈ mid, 0 < (recvfrom x.ackbuf hdr_size x.outcome).1) →
      unsent_during s idx mid = true →
      (slot (backend_run s mid).send_window idx = stamp t1 e ∨
        slot (backend_run s mid).send_window idx = emptyEntry) := by
  induction mid with
  | nil => intro s h _ _; exact h
  | cons x xs ih =>
    intro s h hr hu
    unfold unsent_during at hu
    rw [Bool.and_eq_true, Bool.not_eq_true'] at hu
    have hp := slot_unsent_pass s x.now_ms idx hu.1
    have hstep : slot (backend_step s x).send_window idx = stamp t1 e ∨
        slot (backend_step s x).send_window idx = emptyEntry := by
      unfold backend_step
      rcases receive_slots (transmit_loop s x.now_ms).1 x.ackbuf x.outcome
        (hr x (List.mem_cons_self x xs)) idx with h1 | h1
      · rw [h1, hp]; exact h
      · exact Or.inr h1
    exact ih (backend_step s x) hstep (fun y hy => hr y (List.mem_cons_of_mem x hy)) hu.2

theorem sent_slot_stamped (s : State) (now_ms idx : Nat)
    (h : slot_sent s now_ms idx = true) :
    (∃ p, (slot s.send_window idx).packet = some p) ∧
      rate_limited (slot s.send_window idx) now_ms = false ∧
      slot (transmit_loop s now_ms).1.send_window idx = stamp now_ms (slot s.send_window idx) := by
  obtain ⟨i, hi, he, hs⟩ := (slot_sent_iff s now_ms idx).1 h
  obtain ⟨p, f1, f2, _⟩ := sends_at_spec s now_ms i hs
  have f3 := stamped_after_pass s now_ms i hi hs
  rw [he] at f1 f2 f3
  exact ⟨⟨p, f1⟩, f2, f3⟩

/-- Two successive transmissions of the slot at ring position `idx`: the pass
of iteration `x1` from `s` transmits it, no pass of the iterations `mid`
does, every receive of `x1 :: mid` yields bytes, and the next pass, at clock
`t2`, transmits it again. -/
theorem two_pass_gap (s : State) (x1 : BackendInput) (mid : List BackendInput)
    (t2 idx : Nat) (h1 : slot_sent s x1.now_ms idx = true) (ht1 : x1.now_ms ≠ 0)
    (hr : ∀ x ∈ x1 :: mid, 0 < (recvfrom x.ackbuf hdr_size x.outcome).1)
    (hu : unsent_during (backend_step s x1) idx mid = true)
    (h2 : slot_sent (backend_run s (x1 :: mid)) t2 idx = true) :
    100 ≤ (t2 + 18446744073709551616 - x1.now_ms) % 18446744073709551616 ∧
      (x1.now_ms ≤ t2 → 100 ≤ t2 - x1.now_ms) := by
  obtain ⟨_, _, hst⟩ := sent_slot_stamped s x1.now_ms idx h1
  have hstep : slot (backend_step s x1).send_window idx
        = stamp x1.now_ms (slot s.send_window idx) ∨
      slot (backend_step s x1).send_window idx = emptyEntry := by
    unfold backend_step
    rcases receive_slots (transmit_loop s x1.now_ms).1 x1.ackbuf x1.outcome
      (hr x1 (List.mem_cons_self x1 mid)) idx with h | h
    · rw [h, hst]; exact Or.inl rfl
    · exact Or.inr h
  have hfin := stamp_kept idx x1.now_ms (slot s.send_window idx) mid (backend_step s x1) hstep
    (fun y hy => hr y (List.mem_cons_of_mem x1 hy)) hu
  have hrun : backend_run s (x1 :: mid) = backend_run (backend_step s x1) mid := rfl
  rw [hrun] at h2
  obtain ⟨⟨p, hp⟩, hg, _⟩ := sent_slot_stamped (backend_run (backend_step s x1) mid) t2 idx h2
  rcases hfin with h | h
  · rw [h] at hg
    have hso : (stamp x1.now_ms (slot s.send_window idx)).sent_once ≠ 0 := by
      show (1 : Nat) ≠ 0
      decide
    have hla : (stamp x1.now_ms (slot s.send_window idx)).last_sent_ms ≠ 0 := ht1
    have h100 := gate_open _ t2 hso hla hg
    have hl : (stamp x1.now_ms (slot s.send_window idx)).last_sent_ms = x1.now_ms := rfl
    rw [hl] at h100
    refine ⟨h100, ?_⟩
    intro hle
    omega
  · rw [h] at hp
    exact absurd hp (by simp [emptyEntry])

theorem sent_from_slot (s : State) (now_ms : Nat) :
    ∀ d ∈ (transmit_loop s now_ms).2, ∃ idx p, slot_sent s now_ms idx = true ∧
      (slot s.send_window idx).packet = some p ∧
      d.sock = (slot s.send_window idx).socket ∧
      d.data = (packet_bytes p).take (hdr_size + (slot s.send_window idx).packetlen) := by
  intro d hd
  obtain ⟨i, hi, hs, f1, p, f2, f3⟩ := sent_from_sends s now_ms s.swnd_count d hd
  exact ⟨(s.swnd_tail + i) % swnd_size, p,
    (slot_sent_iff s now_ms _).2 ⟨i, hi, rfl, hs⟩, f2, f1, f3⟩

/-- C14, as amended: in a run of `rudp_backend` iterations over (clock
reading, receive outcome), take two successive transmissions of the slot at a
ring position: the pass at a nonzero clock reading `t1` transmits it, no pass
of the iterations in between does, and the pass at clock reading `t2`
transmits it again.  If every receive between the two (that of the first
iteration included) yields bytes, then `t2 - t1 ≥ 100` in `unsigned long`
arithmetic, and `t2 - t1 ≥ 100` outright when `t1 ≤ t2`.  This rests on the
pass itself, for every state and clock reading `now`: every datagram sent is
the packet of a transmitted slot; a transmitted slot was occupied with its
gate open at the start of the pass (unstamped, or `now - last_sent_ms ≥ 100`)
and is stamped `sent_once = 1`, `last_sent_ms = now` after the pass; a slot
that is not transmitted is left as it was. -/
theorem retransmit_rate_limit (s : State) (now_ms : Nat) :
    (∀ d ∈ (transmit_loop s now_ms).2, ∃ idx p, slot_sent s now_ms idx = true ∧
        (slot s.send_window idx).packet = some p ∧
        d.sock = (slot s.send_window idx).socket ∧
        d.data = (packet_bytes p).take (hdr_size + (slot s.send_window idx).packetlen)) ∧
      (∀ idx, slot_sent s now_ms idx = true →
        (∃ p, (slot s.send_window idx).packet = some p) ∧
        rate_limited (slot s.send_window idx) now_ms = false ∧
        ((slot s.send_window idx).sent_once ≠ 0 → (slot s.send_window idx).last_sent_ms ≠ 0 →
          100 ≤ (now_ms + 18446744073709551616 - (slot s.send_window idx).last_sent_ms)
            % 18446744073709551616) ∧
        slot (transmit_loop s now_ms).1.send_window idx
          = stamp now_ms (slot s.send_window idx)) ∧
      (∀ idx, slot_sent s now_ms idx = false →
        slot (transmit_loop s now_ms).1.send_window idx = slot s.send_window idx) ∧
      (∀ (ackbuf : List Nat) (o : RecvOutcome) (mid : List BackendInput) (t2 idx : Nat),
        slot_sent s now_ms idx = true → now_ms ≠ 0 →
        (∀ x ∈ (⟨now_ms, ackbuf, o⟩ : BackendInput) :: mid,
          0 < (recvfrom x.ackbuf hdr_size x.outcome).1) →
        unsent_during (backend_step s ⟨now_ms, ackbuf, o⟩) idx mid = true →
        slot_sent (backend_run s (⟨now_ms, ackbuf, o⟩ :: mid)) t2 idx = true →
        100 ≤ (t2 + 18446744073709551616 - now_ms) % 18446744073709551616 ∧
          (now_ms ≤ t2 → 100 ≤ t2 - now_ms)) := by
  refine ⟨sent_from_slot s now_ms, ?_, fun idx h => slot_unsent_pass s now_ms idx h, ?_⟩
  · intro idx h
    obtain ⟨hp, hg, hst⟩ := sent_slot_stamped s now_ms idx h
    exact ⟨hp, hg, fun h1 h2 => gate_open _ now_ms h1 h2 hg, hst⟩
  · intro ackbuf o mid t2 idx h1 ht1 hr hu h2
    exact two_pass_gap s ⟨now_ms, ackbuf, o⟩ mid t2 idx h1 ht1 hr hu h2

/-- Witness for C14: the slot at ring position 0 is transmitted by the pass at
clock 1000, held back by the pass at clock 1050 and transmitted again by the
pass at clock 1100, with both receives yielding a `SYN` header. -/
theorem retransmit_rate_limit_witness :
    (slot_sent rateSender 1000 0 = true ∧ 1000 ≠ 0 ∧
        (∀ x ∈ [synInput 1000, synInput 1050],
          0 < (recvfrom x.ackbuf hdr_size x.outcome).1) ∧
        unsent_during (backend_step rateSender (synInput 1000)) 0 [synInput 1050] = true ∧
        slot_sent (backend_run rateSender [synInput 1000, synInput 1050]) 1100 0 = true) ∧
      (100 ≤ (1100 + 18446744073709551616 - 1000) % 18446744073709551616 ∧
        (1000 ≤ 1100 → 100 ≤ 1100 - 1000)) :=
  ⟨⟨by decide, by decide, by decide, by decide, by decide⟩,
    (retransmit_rate_limit rateSender 1000).2.2.2 zeroPkt (.dgram synDgram peerAddr 16)
      [synInput 1050] 1100 0 (by decide) (by decide) (by decide) (by decide) (by decide)⟩

/-- C14 fails as stated: the pass at clock 1000 transmits the slot of sequence
number 0; the receive then yields an empty datagram, which resets the stamps;
the pass at clock 1001 transmits the same slot again, 1 ms later.  Likewise a
slot transmitted at clock reading 0 is transmitted again at clock reading 1,
and a slot transmitted at clock reading 1000 is transmitted again when the
clock has gone back to 999, in both cases after a receive that yields a `SYN`
header. -/
theorem retransmit_rate_limit_reset :
    (transmit_loop rateSender 1000).2.map (fun d => read_u32 d.data seqnum_off) = [0] ∧
      window_seqs rateAfterReset = [0] ∧
      (slot rateAfterReset.send_window 0).sent_once = 0 ∧
      (transmit_loop rateAfterReset 1001).2.map (fun d => read_u32 d.data seqnum_off) = [0] ∧
      (slot_sent rateSender 1000 0 = true ∧
        slot_sent (backend_step rateSender ⟨1000, zeroPkt, .dgram [] peerAddr 16⟩) 1001 0
          = true) ∧
      (slot_sent rateSender 0 0 = true ∧
        slot_sent (backend_step rateSender (synInput 0)) 1 0 = true) ∧
      (slot_sent rateSender 1000 0 = true ∧
        slot_sent (backend_step rateSender (synInput 1000)) 999 0 = true) := by
  refine ⟨by decide, by decide, by decide, by decide, ⟨by decide, by decide⟩,
    ⟨by decide, by decide⟩, ⟨by decide, by decide⟩⟩

end Rudp
